import Mathlib

/-!
# sshtun: a verification development of `main.go`

The program forwards local TCP ports through one authenticated SSH client.
Everything it does is an effect on the outside world: reading files, dialing,
listening, logging, exiting.  The embedding therefore makes the effects
explicit:

* every library call whose result the program inspects is a field of `World`
  (the answer the outside world gives), with Go's `(value, err)` pair as its
  result type;
* every function of `main.go` becomes a function into `Proc α`: the list of
  effects performed, in order, together with how the call ended (`ret v`,
  `exit` after `log.Fatal`, or `block` when it waits forever);
* the two copy goroutines of `handleConn` run on a small-step machine
  (`Relay`) driven by an arbitrary schedule, one step per scheduler choice.
-/

namespace Sshtun

/-! ## Definitions -/

/-! ### Values -/

/-- A Go `error` value that is not nil; a possibly-nil error is `Option GoError`. -/
structure GoError where
  msg : String
deriving DecidableEq, Repr

/-- The referent of a `*ssh.Client`; the pointer itself is `Option Client`. -/
structure Client where
  id : Nat
deriving DecidableEq, Repr

/-- An `ssh.Signer` as returned by `ssh.ParsePrivateKey`. -/
structure Signer where
  id : Nat
deriving DecidableEq, Repr

/-- The two `ssh.AuthMethod` values the program builds. -/
inductive AuthMethod where
  | publicKeys (signers : List Signer)
  | password (secret : String)
deriving DecidableEq, Repr

/-- The fields of `ssh.ClientConfig` the program sets (all others stay zero). -/
structure ClientConfig where
  User : String
  Auth : List AuthMethod
deriving DecidableEq, Repr

/-- Source type `sshServer` (main.go:21). -/
structure sshServer where
  Addr : String
  User : String
  Password : String
  KeyPath : String
deriving DecidableEq, Repr

/-- Source type `config` (main.go:27).  `Ports` is a Go `map[string]string`,
listed here in the order in which `range` happens to visit it. -/
structure config where
  SSH : sshServer
  Ports : List (String × String)
deriving DecidableEq, Repr

/-- Source type `session` (main.go:32). -/
structure session where
  client : Option Client
  listenAddr : String
  remoteAddr : String
deriving DecidableEq, Repr

/-! ### Streams and listeners as the outside world provides them -/

/-- What one `Read` call on a stream yields: the bytes placed in the buffer
and the error returned with them (`eof` is `io.EOF`). -/
inductive ReadErr where
  | eof
  | other (e : GoError)
deriving DecidableEq, Repr

/-- One result of `Read`: `n` bytes and possibly an error. -/
structure ReadRes where
  bytes : List UInt8
  err : Option ReadErr
deriving DecidableEq, Repr

/-- A `net.Conn` as the outside world provides it: the address reported by
`RemoteAddr()`; what the peer will hand to successive `Read` calls (`rscript`;
when it is used up the peer is silent and `Read` blocks); the number of bytes
the peer will still take before `Write` fails (`wcap`; `none`: it never
fails); and how `Read` behaves once the program has called `Close`: it still
hands out the next `lingering` entries of the script (none for a TCP socket,
what had already arrived for an SSH channel) and then returns `closedErr`
(an error for a TCP socket, `io.EOF` for an SSH channel). -/
structure NetConn where
  remoteAddr : String
  rscript : List ReadRes
  wcap : Option Nat
  lingering : Nat
  closedErr : ReadErr
deriving DecidableEq, Repr

/-- A `net.Listener`: the results its successive `Accept` calls will give
(when the list is used up no further peer connects and `Accept` blocks). -/
structure Listener where
  accepts : List (NetConn × Option GoError)
deriving DecidableEq, Repr

/-! ### Effects -/

/-- The two ends of a forwarded connection: the accepted socket `conn` and
the stream `remote` opened through the SSH client. -/
inductive Side where
  | inbound
  | remote
deriving DecidableEq, Repr

/-- The two copy goroutines of `handleConn`: `up` runs `io.Copy(remote, conn)`
(main.go:56), `down` runs `io.Copy(conn, remote)` (main.go:61). -/
inductive Dir where
  | up
  | down
deriving DecidableEq, Repr

/-- An argument of a log call. -/
inductive Arg where
  | str (s : String)
  | err (e : GoError)
  | ports (m : List (String × String))
deriving DecidableEq, Repr

/-- The observable effects, one constructor per kind of call in `main.go`
(`read` and `write` are the calls `io.Copy` makes on its two arguments;
`write` carries the bytes the stream accepted). -/
inductive Event where
  | decodeFile (path : String)
  | readFile (path : String)
  | parsePrivateKey (key : List UInt8)
  | sshDial (network addr : String) (cc : ClientConfig)
  | printf (format : String) (args : List Arg)
  | fatal (args : List Arg)
  | fatalf (format : String) (args : List Arg)
  | listen (network addr : String)
  | accept (listenAddr : String)
  | dial (client : Option Client) (network addr : String)
  | goHandleConn (s : session) (conn : NetConn)
  | goRunSession (s : session) (localPort remote : String)
  | wgAdd (n : Nat)
  | goCopy (d : Dir)
  | read (side : Side) (bytes : List UInt8)
  | write (side : Side) (bytes : List UInt8)
  | copyReturn (d : Dir)
  | close (side : Side)
  | wgDone (d : Dir)
  | wgWait
deriving DecidableEq, Repr

/-- How a call ended. -/
inductive Outcome (α : Type) where
  | ret (a : α)
  | exit
  | block
deriving DecidableEq, Repr

/-- A terminated or stuck computation: the effects performed and the outcome. -/
structure Proc (α : Type) where
  trace : List Event
  out : Outcome α
deriving DecidableEq, Repr

/-- Sequencing: the second computation runs only if the first returned. -/
def Proc.bind {α β : Type} (m : Proc α) (f : α → Proc β) : Proc β :=
  match m.out with
  | .ret a => ⟨m.trace ++ (f a).trace, (f a).out⟩
  | .exit => ⟨m.trace, .exit⟩
  | .block => ⟨m.trace, .block⟩

instance : Monad Proc where
  pure a := ⟨[], .ret a⟩
  bind := Proc.bind

/-- Perform one effect whose answer is `a`. -/
def emit {α : Type} (e : Event) (a : α) : Proc α := ⟨[e], .ret a⟩

/-- The call `log.Printf(format, args...)`. -/
def logPrintf (format : String) (args : List Arg) : Proc Unit :=
  emit (.printf format args) ()

/-- The call `log.Fatal(args...)`: print, then `os.Exit(1)`. -/
def logFatal {α : Type} (args : List Arg) : Proc α := ⟨[.fatal args], .exit⟩

/-- The call `log.Fatalf(format, args...)`: print, then `os.Exit(1)`. -/
def logFatalf {α : Type} (format : String) (args : List Arg) : Proc α :=
  ⟨[.fatalf format args], .exit⟩

/-- The answers of the outside world to the library calls of `main.go`. -/
structure World where
  decodeFile : String → config × Option GoError
  readFile : String → List UInt8 × Option GoError
  parsePrivateKey : List UInt8 → Signer × Option GoError
  sshDial : String → String → ClientConfig → Option Client × Option GoError
  listen : String → String → Listener × Option GoError
  clientDial : Option Client → String → String → NetConn × Option GoError

/-! ### `login` (main.go:84) -/

/-- Source function `login`. -/
def login (w : World) (cfg : sshServer) : Proc (Option Client × Option GoError) := do
  let mut methods : List AuthMethod := []
  if cfg.KeyPath = "" ∧ cfg.Password = "" then
    return (none, some ⟨"empty private key and password"⟩)
  if cfg.KeyPath ≠ "" then
    let (key, err) ← emit (.readFile cfg.KeyPath) (w.readFile cfg.KeyPath)
    if let some e := err then
      return (none, some ⟨"unable to read private key: " ++ e.msg⟩)
    let (signer, err) ← emit (.parsePrivateKey key) (w.parsePrivateKey key)
    if let some e := err then
      logFatalf "unable to parse private key: %v" [.err e]
    methods := methods ++ [.publicKeys [signer]]
  if cfg.Password ≠ "" then
    methods := methods ++ [.password cfg.Password]
  let sshconfig : ClientConfig := ⟨cfg.User, methods⟩
  emit (.sshDial "tcp" cfg.Addr sshconfig) (w.sshDial "tcp" cfg.Addr sshconfig)

/-! ### The relay of `handleConn` (main.go:54-67)

The loop of `io.Copy(dst, src)` is the one of the Go library: read a chunk from
`src`; if it holds bytes, write them to `dst` and stop on a write error or a
short write; stop on a read error, `io.EOF` included. -/

/-- Run-time state of one end of a forwarded connection: what is left of the
script, of the capacity and of the entries that outlive a `Close`, the error
of a `Read` on the closed stream, and the number of `Close` calls made. -/
structure Endpoint where
  rscript : List ReadRes
  wcap : Option Nat
  lingering : Nat
  closedErr : ReadErr
  closes : Nat
deriving DecidableEq, Repr

/-- The state in which the program receives a connection. -/
def NetConn.endpoint (c : NetConn) : Endpoint :=
  ⟨c.rscript, c.wcap, c.lingering, c.closedErr, 0⟩

/-- The error of an operation on a socket the program has closed. -/
def errClosed : GoError := ⟨"use of closed network connection"⟩

/-- The error of a write the peer refuses. -/
def errPipe : GoError := ⟨"broken pipe"⟩

/-- The call `Read`: `none` when it blocks.  On an open stream it takes the
next entry of the script and blocks when there is none.  On a stream the
program has closed it never blocks: it hands out the next entry while entries
linger, and returns `closedErr` with no bytes otherwise. -/
def Endpoint.read (e : Endpoint) : Option (ReadRes × Endpoint) :=
  if e.closes ≠ 0 then
    match e.lingering, e.rscript with
    | k + 1, r :: rs => some (r, ⟨rs, e.wcap, k, e.closedErr, e.closes⟩)
    | _, _ => some (⟨[], some e.closedErr⟩, e)
  else
    match e.rscript with
    | [] => none
    | r :: rs => some (r, ⟨rs, e.wcap, e.lingering, e.closedErr, e.closes⟩)

/-- The call `Write(bs)`: the accepted bytes, the error, and the new state.
On a stream the program has closed nothing is accepted; beyond the capacity of
the peer only the bytes that still fit are. -/
def Endpoint.write (e : Endpoint) (bs : List UInt8) : List UInt8 × Option GoError × Endpoint :=
  if e.closes ≠ 0 then
    ([], some errClosed, e)
  else
    match e.wcap with
    | none => (bs, none, e)
    | some k =>
      if bs.length ≤ k then
        (bs, none, ⟨e.rscript, some (k - bs.length), e.lingering, e.closedErr, e.closes⟩)
      else (bs.take k, some errPipe, ⟨e.rscript, some 0, e.lingering, e.closedErr, e.closes⟩)

/-- The call `Close`. -/
def Endpoint.close (e : Endpoint) : Endpoint :=
  ⟨e.rscript, e.wcap, e.lingering, e.closedErr, e.closes + 1⟩

/-- Where `handleConn` itself stands, from `wait.Add(2)` (main.go:55) on. -/
inductive MainPC where
  | add
  | go1
  | go2
  | wait
  | log
  | returned
deriving DecidableEq, Repr

/-- Where a copy goroutine stands: not yet started, inside the loop of
`io.Copy` before `Read`, inside it holding a read result whose bytes are to be
written, before `Close`, before `wait.Done()`, finished. -/
inductive TaskPC where
  | idle
  | reading
  | writing (r : ReadRes)
  | closing
  | signalling
  | finished
deriving DecidableEq, Repr

/-- The three threads of control of one `handleConn` call. -/
inductive Tid where
  | main
  | task (d : Dir)
deriving DecidableEq, Repr

/-- Source of the copy of a goroutine. -/
def Dir.src : Dir → Side
  | .up => .inbound
  | .down => .remote

/-- Destination of the copy of a goroutine, which it closes afterwards. -/
def Dir.dst : Dir → Side
  | .up => .remote
  | .down => .inbound

/-- State of the relay. -/
structure Relay where
  inbound : Endpoint
  remote : Endpoint
  wg : Nat
  mainPC : MainPC
  up : TaskPC
  down : TaskPC
  trace : List Event
deriving DecidableEq, Repr

/-- The endpoint on a side. -/
def Relay.ep (st : Relay) : Side → Endpoint
  | .inbound => st.inbound
  | .remote => st.remote

/-- Replace the endpoint on a side. -/
def Relay.setEp (st : Relay) (sd : Side) (e : Endpoint) : Relay :=
  match sd with
  | .inbound => ⟨e, st.remote, st.wg, st.mainPC, st.up, st.down, st.trace⟩
  | .remote => ⟨st.inbound, e, st.wg, st.mainPC, st.up, st.down, st.trace⟩

/-- The program counter of a goroutine. -/
def Relay.pc (st : Relay) : Dir → TaskPC
  | .up => st.up
  | .down => st.down

/-- Replace the program counter of a goroutine. -/
def Relay.setPc (st : Relay) (d : Dir) (pc : TaskPC) : Relay :=
  match d with
  | .up => ⟨st.inbound, st.remote, st.wg, st.mainPC, pc, st.down, st.trace⟩
  | .down => ⟨st.inbound, st.remote, st.wg, st.mainPC, st.up, pc, st.trace⟩

/-- Replace the program counter of `handleConn`. -/
def Relay.setMain (st : Relay) (pc : MainPC) : Relay :=
  ⟨st.inbound, st.remote, st.wg, pc, st.up, st.down, st.trace⟩

/-- Replace the WaitGroup counter. -/
def Relay.setWg (st : Relay) (n : Nat) : Relay :=
  ⟨st.inbound, st.remote, n, st.mainPC, st.up, st.down, st.trace⟩

/-- Record effects. -/
def Relay.log (st : Relay) (es : List Event) : Relay :=
  ⟨st.inbound, st.remote, st.wg, st.mainPC, st.up, st.down, st.trace ++ es⟩

/-- The state after `wait := new(sync.WaitGroup)` (main.go:54). -/
def Relay.init (conn remote : NetConn) : Relay :=
  ⟨conn.endpoint, remote.endpoint, 0, .add, .idle, .idle, []⟩

/-- The log line of main.go:67. -/
@[reducible] def closedLine (s : session) (conn : NetConn) : Event :=
  .printf "%s -> %s closed" [.str conn.remoteAddr, .str s.remoteAddr]

/-- One step of `handleConn` itself (main.go:55-67); `none` when it cannot move. -/
def stepMain (s : session) (conn : NetConn) (st : Relay) : Option Relay :=
  match st.mainPC with
  | .add => some (((st.setWg (st.wg + 2)).setMain .go1).log [.wgAdd 2])
  | .go1 => some (((st.setPc .up .reading).setMain .go2).log [.goCopy .up])
  | .go2 => some (((st.setPc .down .reading).setMain .wait).log [.goCopy .down])
  | .wait => if st.wg = 0 then some ((st.setMain .log).log [.wgWait]) else none
  | .log => some ((st.setMain .returned).log [closedLine s conn])
  | .returned => none

/-- One step of the goroutine `d` (main.go:56-60 and 61-65): one `Read` or one
`Write` of the loop of `io.Copy(dst, src)`, the `Close` of `dst`, or
`wait.Done()`; `none` when it cannot move. -/
def stepTask (d : Dir) (st : Relay) : Option Relay :=
  match st.pc d with
  | .idle => none
  | .reading =>
    match (st.ep d.src).read with
    | none => none
    | some (r, e) =>
      let st1 := (st.setEp d.src e).log [.read d.src r.bytes]
      if r.bytes ≠ [] then some (st1.setPc d (.writing r))
      else if r.err.isSome then some ((st1.setPc d .closing).log [.copyReturn d])
      else some st1
  | .writing r =>
    match (st.ep d.dst).write r.bytes with
    | (acc, ew, e) =>
      let st1 := (st.setEp d.dst e).log [.write d.dst acc]
      if ew.isSome ∨ acc.length ≠ r.bytes.length ∨ r.err.isSome then
        some ((st1.setPc d .closing).log [.copyReturn d])
      else some (st1.setPc d .reading)
  | .closing => some (((st.setEp d.dst (st.ep d.dst).close).setPc d .signalling).log [.close d.dst])
  | .signalling => some (((st.setWg (st.wg - 1)).setPc d .finished).log [.wgDone d])
  | .finished => none

/-- One step of the thread the scheduler picked. -/
def step (s : session) (conn : NetConn) (st : Relay) : Tid → Option Relay
  | .main => stepMain s conn st
  | .task d => stepTask d st

/-- Run a schedule; a choice that cannot move is skipped. -/
def Relay.run (s : session) (conn : NetConn) (st : Relay) : List Tid → Relay
  | [] => st
  | t :: ts =>
    match step s conn st t with
    | none => Relay.run s conn st ts
    | some st1 => Relay.run s conn st1 ts

/-- Lines 54-67 of `handleConn` under the schedule `sched`: the effects made,
and whether `handleConn` got to return. -/
def relay (s : session) (conn remote : NetConn) (sched : List Tid) : Proc Unit :=
  let fin := Relay.run s conn (Relay.init conn remote) sched
  ⟨fin.trace, if fin.mainPC = .returned then .ret () else .block⟩

/-! ### `newSession`, `handleConn`, `Run`, `main` -/

/-- Source function `newSession` (main.go:38). -/
def newSession (listen remote : String) (client : Option Client) : session :=
  ⟨client, listen, remote⟩

/-- Source method `session.handleConn` (main.go:46); `sched` is the order in
which the scheduler lets its three threads move. -/
def session.handleConn (w : World) (s : session) (conn : NetConn) (sched : List Tid) :
    Proc Unit := do
  logPrintf "accept %s" [.str conn.remoteAddr]
  let (remote, err) ← emit (.dial s.client "tcp" s.remoteAddr) (w.clientDial s.client "tcp" s.remoteAddr)
  if let some _ := err then
    logPrintf "dial %s error" [.str s.remoteAddr]
    return
  logPrintf "%s -> %s connected." [.str conn.remoteAddr, .str s.remoteAddr]
  relay s conn remote sched

/-- The loop of `session.Run` (main.go:75-81) over the results of `Accept`. -/
def acceptLoop (s : session) : List (NetConn × Option GoError) → Proc (Option GoError)
  | [] => ⟨[.accept s.listenAddr], .block⟩
  | (conn, err) :: rest => do
    emit (.accept s.listenAddr) ()
    if let some e := err then
      logFatal [.err e]
    emit (.goHandleConn s conn) ()
    acceptLoop s rest

/-- Source method `session.Run` (main.go:70). -/
def session.Run (w : World) (s : session) : Proc (Option GoError) := do
  let (l, err) ← emit (.listen "tcp" s.listenAddr) (w.listen "tcp" s.listenAddr)
  if let some e := err then
    return some e
  acceptLoop s l.accepts

/-- The goroutine started for each port mapping (main.go:135-141). -/
def runSession (w : World) (sess : session) (localPort remote : String) : Proc Unit := do
  logPrintf "run session %s -> %s" [.str localPort, .str remote]
  let err ← sess.Run w
  if let some e := err then
    logFatalf "run %s error:%s" [.str localPort, .err e]

/-- Source function `main` (main.go:116); `cfgpath` is the value of the flag
`-config`.  It ends in `select {}` and so never returns. -/
def main (w : World) (cfgpath : String) : Proc Unit := do
  let (cfg, err) ← emit (.decodeFile cfgpath) (w.decodeFile cfgpath)
  if let some e := err then
    logFatal [.err e]
  let (client, err) ← login w cfg.SSH
  if let some e := err then
    logFatal [.err e]
  logPrintf "dial %s success" [.str cfg.SSH.Addr]
  logPrintf "ports: %v" [.ports cfg.Ports]
  for (localPort, remote) in cfg.Ports do
    let sess := newSession (":" ++ localPort) remote client
    emit (.goRunSession sess localPort remote) ()
  ⟨[], .block⟩

/-! ### Sample worlds -/

/-- An inbound TCP connection whose peer sends two bytes and then ends the
stream. -/
def c0 : NetConn :=
  ⟨"1.2.3.4:5", [⟨[1, 2], none⟩, ⟨[], some .eof⟩], none, 0, .other errClosed⟩

/-- A remote SSH channel whose peer sends one byte together with the end of
stream. -/
def r0 : NetConn := ⟨"10.0.0.5:80", [⟨[9], some .eof⟩], none, 1, .eof⟩

/-- A sample world.  The configuration has a password and no key and maps two
ports; the key file `/k` holds `[1]`, which parses to signer 7, and `/bad`
holds `[2]`, which does not parse; the server accepts the password `pw`;
`:80` cannot be bound, `:8080` accepts one connection and then fails, any
other address accepts two connections; only `10.0.0.5:80` can be dialed. -/
def w0 : World where
  decodeFile := fun _ =>
    (⟨⟨"h:22", "u", "pw", ""⟩, [("8080", "10.0.0.5:80"), ("2222", "10.0.0.6:22")]⟩, none)
  readFile := fun p =>
    if p = "/k" then ([1], none)
    else if p = "/bad" then ([2], none)
    else ([], some ⟨"no such file"⟩)
  parsePrivateKey := fun k => if k = [1] then (⟨7⟩, none) else (⟨0⟩, some ⟨"bad key"⟩)
  sshDial := fun _ _ cc =>
    if AuthMethod.password "pw" ∈ cc.Auth then (some ⟨1⟩, none) else (none, some ⟨"auth failed"⟩)
  listen := fun _ addr =>
    if addr = ":80" then (⟨[]⟩, some ⟨"permission denied"⟩)
    else if addr = ":8080" then (⟨[(c0, none), (c0, some ⟨"too many open files"⟩)]⟩, none)
    else (⟨[(c0, none), (c0, none)]⟩, none)
  clientDial := fun _ _ addr =>
    if addr = "10.0.0.5:80" then (r0, none) else (⟨"", [], none, 0, .eof⟩, some ⟨"unreachable"⟩)

/-- The world `w0` with a configuration whose key path names a missing file. -/
def w1 : World where
  decodeFile := fun _ => (⟨⟨"h:22", "u", "pw", "/x"⟩, [("8080", "10.0.0.5:80")]⟩, none)
  readFile := w0.readFile
  parsePrivateKey := w0.parsePrivateKey
  sshDial := w0.sshDial
  listen := w0.listen
  clientDial := w0.clientDial

/-- A session whose remote address can be dialed in `w0`. -/
def s0 : session := ⟨some ⟨1⟩, ":8080", "10.0.0.5:80"⟩

/-- A session whose remote address cannot be dialed in `w0`. -/
def s1 : session := ⟨some ⟨1⟩, ":2222", "10.0.0.6:22"⟩

/-- A session whose listen address cannot be bound in `w0`. -/
def s2 : session := ⟨some ⟨1⟩, ":80", "10.0.0.5:80"⟩

/-- A schedule that lets a relay over `c0` and `r0` run to its end. -/
def sched0 : List Tid :=
  [.main, .main, .main, .task .up, .task .up, .task .down, .task .down, .task .up, .task .up,
    .task .up, .task .down, .task .down, .main, .main]

/-! ### Reading traces -/

/-- Is the effect a call of `ssh.Dial`? -/
def Event.isSshDial : Event → Bool
  | .sshDial _ _ _ => true
  | _ => false

/-- Is the effect a `log.Fatal` or `log.Fatalf`? -/
def Event.isFatal : Event → Bool
  | .fatal _ => true
  | .fatalf _ _ => true
  | _ => false

/-- Is the effect a call of `Dial` on the SSH client? -/
def Event.isDial : Event → Bool
  | .dial _ _ _ => true
  | _ => false

/-- Is the effect the start of a session goroutine? -/
def Event.isGoRunSession : Event → Bool
  | .goRunSession _ _ _ => true
  | _ => false

/-- The session whose goroutine the effect starts, if it starts one. -/
def Event.sessionOf : Event → Option session
  | .goRunSession s _ _ => some s
  | _ => none

/-- Is the effect a call of `net.Listen`? -/
def Event.isListen : Event → Bool
  | .listen _ _ => true
  | _ => false

/-- Is the effect a call of `Accept`? -/
def Event.isAccept : Event → Bool
  | .accept _ => true
  | _ => false

/-- Is the effect a `Read` or a `Write` made by the `io.Copy` of goroutine `d`? -/
def Event.copies (d : Dir) : Event → Bool
  | .read sd _ => sd = d.src
  | .write sd _ => sd = d.dst
  | _ => false

/-- The bytes that the `Read` calls on side `sd` returned, in order. -/
def readBytes (sd : Side) : List Event → List UInt8
  | [] => []
  | .read sd1 bs :: es => if sd1 = sd then bs ++ readBytes sd es else readBytes sd es
  | _ :: es => readBytes sd es

/-- The bytes that the `Write` calls on side `sd` got accepted, in order. -/
def writtenBytes (sd : Side) : List Event → List UInt8
  | [] => []
  | .write sd1 bs :: es => if sd1 = sd then bs ++ writtenBytes sd es else writtenBytes sd es
  | _ :: es => writtenBytes sd es

/-- Every occurrence of `b` in the trace has an `a` somewhere before it. -/
def Precedes (a b : Event) (tr : List Event) : Prop :=
  ∀ pre post, tr = pre ++ b :: post → a ∈ pre

/-- No effect recognised by `p` occurs anywhere after an occurrence of `b`. -/
def NoneAfter (b : Event) (p : Event → Bool) (tr : List Event) : Prop :=
  ∀ pre post, tr = pre ++ b :: post → ∀ e ∈ post, p e = false

/-- An `a` occurs in the trace with no `b` before it. -/
def ClosedFirst (a b : Event) (tr : List Event) : Prop :=
  ∃ pre post, tr = pre ++ a :: post ∧ b ∉ pre

/-- All the bytes of a script, in order. -/
def allBytes : List ReadRes → List UInt8
  | [] => []
  | r :: rs => r.bytes ++ allBytes rs

/-- The bytes of a script up to its end of stream: up to and including the
first entry that comes with an error, `io.EOF` included. -/
def streamBytes : List ReadRes → List UInt8
  | [] => []
  | r :: rs => if r.err.isSome then r.bytes else r.bytes ++ streamBytes rs

/-- The connection on a side. -/
def peerOf (conn remote : NetConn) : Side → NetConn
  | .inbound => conn
  | .remote => remote

/-! ### Moves and invariants of the relay -/

/-- Has the goroutine left the loop of `io.Copy`? -/
def TaskPC.copied : TaskPC → Bool
  | .closing => true
  | .signalling => true
  | .finished => true
  | _ => false

/-- Has the goroutine made its `Close` call? -/
def TaskPC.closed : TaskPC → Bool
  | .signalling => true
  | .finished => true
  | _ => false

/-- The moves of the relay, one constructor per branch of `step`. -/
inductive Move (s : session) (conn : NetConn) (st : Relay) : Relay → Prop where
  | add : st.mainPC = .add →
      Move s conn st (((st.setWg (st.wg + 2)).setMain .go1).log [.wgAdd 2])
  | go1 : st.mainPC = .go1 →
      Move s conn st (((st.setPc .up .reading).setMain .go2).log [.goCopy .up])
  | go2 : st.mainPC = .go2 →
      Move s conn st (((st.setPc .down .reading).setMain .wait).log [.goCopy .down])
  | wait : st.mainPC = .wait → st.wg = 0 →
      Move s conn st ((st.setMain .log).log [.wgWait])
  | log : st.mainPC = .log →
      Move s conn st ((st.setMain .returned).log [closedLine s conn])
  | readData (d : Dir) (r : ReadRes) (e : Endpoint) : st.pc d = .reading →
      (st.ep d.src).read = some (r, e) → r.bytes ≠ [] →
      Move s conn st (((st.setEp d.src e).log [.read d.src r.bytes]).setPc d (.writing r))
  | readEnd (d : Dir) (r : ReadRes) (e : Endpoint) : st.pc d = .reading →
      (st.ep d.src).read = some (r, e) → r.bytes = [] → r.err.isSome →
      Move s conn st ((((st.setEp d.src e).log [.read d.src r.bytes]).setPc d .closing).log
        [.copyReturn d])
  | readNone (d : Dir) (r : ReadRes) (e : Endpoint) : st.pc d = .reading →
      (st.ep d.src).read = some (r, e) → r.bytes = [] → r.err = none →
      Move s conn st ((st.setEp d.src e).log [.read d.src r.bytes])
  | writeEnd (d : Dir) (r : ReadRes) (acc : List UInt8) (ew : Option GoError) (e : Endpoint) :
      st.pc d = .writing r → (st.ep d.dst).write r.bytes = (acc, ew, e) →
      (ew.isSome ∨ acc.length ≠ r.bytes.length ∨ r.err.isSome) →
      Move s conn st ((((st.setEp d.dst e).log [.write d.dst acc]).setPc d .closing).log
        [.copyReturn d])
  | writeMore (d : Dir) (r : ReadRes) (acc : List UInt8) (ew : Option GoError) (e : Endpoint) :
      st.pc d = .writing r → (st.ep d.dst).write r.bytes = (acc, ew, e) →
      ¬ (ew.isSome ∨ acc.length ≠ r.bytes.length ∨ r.err.isSome) →
      Move s conn st (((st.setEp d.dst e).log [.write d.dst acc]).setPc d .reading)
  | close (d : Dir) : st.pc d = .closing →
      Move s conn st (((st.setEp d.dst (st.ep d.dst).close).setPc d .signalling).log [.close d.dst])
  | done (d : Dir) : st.pc d = .signalling →
      Move s conn st (((st.setWg (st.wg - 1)).setPc d .finished).log [.wgDone d])

/-- Control invariant: which goroutines exist, what the WaitGroup counter
holds, and how often each end has been closed. -/
structure Ctl (st : Relay) : Prop where
  up_idle : st.up = .idle ↔ (st.mainPC = .add ∨ st.mainPC = .go1)
  down_idle : st.down = .idle ↔ (st.mainPC = .add ∨ st.mainPC = .go1 ∨ st.mainPC = .go2)
  wg_eq : st.wg = if st.mainPC = .add then 0
    else (if st.up = .finished then 0 else 1) + (if st.down = .finished then 0 else 1)
  waited : (st.mainPC = .log ∨ st.mainPC = .returned) → st.up = .finished ∧ st.down = .finished
  remote_closes : st.remote.closes = if st.up.closed then 1 else 0
  inbound_closes : st.inbound.closes = if st.down.closed then 1 else 0

/-- Trace invariant: what the trace holds at each control point, and in
which order. -/
structure Ord (s : session) (conn : NetConn) (st : Relay) : Prop where
  ret_iff : ∀ d, Event.copyReturn d ∈ st.trace ↔ (st.pc d).copied = true
  close_cnt : ∀ d : Dir, st.trace.count (Event.close d.dst) = if (st.pc d).closed = true then 1 else 0
  close_iff : ∀ d : Dir, Event.close d.dst ∈ st.trace ↔ (st.pc d).closed = true
  done_iff : ∀ d, Event.wgDone d ∈ st.trace ↔ st.pc d = .finished
  line_iff : closedLine s conn ∈ st.trace ↔ st.mainPC = .returned
  close_after : ∀ d : Dir, Precedes (.copyReturn d) (.close d.dst) st.trace
  quiet : ∀ d, NoneAfter (.copyReturn d) (Event.copies d) st.trace
  line_done : ∀ d, Precedes (.wgDone d) (closedLine s conn) st.trace
  line_close : ∀ d : Dir, Precedes (.close d.dst) (closedLine s conn) st.trace

/-- The bytes a goroutine has read and not yet written. -/
def TaskPC.pending : TaskPC → List UInt8
  | .writing r => r.bytes
  | _ => []

/-- Flow invariant, for peers that take every write: what was written to the
destination of a copy, followed by what the goroutine still holds, is what was
read from its source. -/
structure Flow (st : Relay) : Prop where
  wcap_none : ∀ sd, (st.ep sd).wcap = none
  bytes : ∀ d : Dir, writtenBytes d.dst st.trace ++ (st.pc d).pending = readBytes d.src st.trace

/-- Has the goroutine made the last `Read` of its `io.Copy`? -/
def TaskPC.ended : TaskPC → Bool
  | .writing r => r.err.isSome
  | .closing => true
  | .signalling => true
  | .finished => true
  | _ => false

/-- Feed invariant, for peers that take every write: what was read from a
source, followed by what is left of its script, is the script; and as long as
the program has not closed the source, the reads follow the script up to its
end of stream. -/
structure Feed (conn remote : NetConn) (st : Relay) : Prop where
  sent : ∀ d : Dir, readBytes d.src st.trace ++ allBytes (st.ep d.src).rscript =
    allBytes (peerOf conn remote d.src).rscript
  whole : ∀ d : Dir, (st.ep d.src).closes = 0 →
    readBytes d.src st.trace ++
        (if (st.pc d).ended = true then [] else streamBytes (st.ep d.src).rscript) =
      streamBytes (peerOf conn remote d.src).rscript

/-- Delivery invariant, for peers that take every write: when a destination
is closed before the source of that copy is, what was read from the source and
what was written to the destination is the source stream up to its end. -/
structure Whole (conn remote : NetConn) (st : Relay) : Prop where
  first : ∀ d : Dir, ClosedFirst (.close d.dst) (.close d.src) st.trace →
    readBytes d.src st.trace = streamBytes (peerOf conn remote d.src).rscript ∧
      writtenBytes d.dst st.trace = streamBytes (peerOf conn remote d.src).rscript

/-! ## Theorems -/

/-! ### Sequencing, `login`, `main` -/

@[simp] theorem bind_def {α β : Type} (m : Proc α) (f : α → Proc β) : (m >>= f) = Proc.bind m f := rfl

@[simp] theorem pure_def {α : Type} (a : α) : (pure a : Proc α) = ⟨[], .ret a⟩ := rfl

@[simp] theorem bind_emit {α β : Type} (e : Event) (a : α) (f : α → Proc β) :
    Proc.bind (emit e a) f = ⟨e :: (f a).trace, (f a).out⟩ := rfl

@[simp] theorem bind_ret {α β : Type} (t : List Event) (a : α) (f : α → Proc β) :
    Proc.bind ⟨t, .ret a⟩ f = ⟨t ++ (f a).trace, (f a).out⟩ := rfl

@[simp] theorem bind_exit {α β : Type} (t : List Event) (f : α → Proc β) :
    Proc.bind ⟨t, .exit⟩ f = ⟨t, .exit⟩ := rfl

@[simp] theorem bind_block {α β : Type} (t : List Event) (f : α → Proc β) :
    Proc.bind ⟨t, .block⟩ f = ⟨t, .block⟩ := rfl

theorem login_empty (w : World) (cfg : sshServer) (h1 : cfg.KeyPath = "") (h2 : cfg.Password = "") :
    login w cfg = ⟨[], .ret (none, some ⟨"empty private key and password"⟩)⟩ := by
  simp [login, h1, h2]

theorem login_cases (w : World) (cfg : sshServer) :
    login w cfg =
      if cfg.KeyPath = "" ∧ cfg.Password = "" then
        ⟨[], .ret (none, some ⟨"empty private key and password"⟩)⟩
      else if cfg.KeyPath = "" then
        ⟨[.sshDial "tcp" cfg.Addr ⟨cfg.User, [.password cfg.Password]⟩],
          .ret (w.sshDial "tcp" cfg.Addr ⟨cfg.User, [.password cfg.Password]⟩)⟩
      else
        match (w.readFile cfg.KeyPath).2 with
        | some e => ⟨[.readFile cfg.KeyPath], .ret (none, some ⟨"unable to read private key: " ++ e.msg⟩)⟩
        | none =>
          match (w.parsePrivateKey (w.readFile cfg.KeyPath).1).2 with
          | some e => ⟨[.readFile cfg.KeyPath, .parsePrivateKey (w.readFile cfg.KeyPath).1,
                        .fatalf "unable to parse private key: %v" [.err e]], .exit⟩
          | none =>
            ⟨[.readFile cfg.KeyPath, .parsePrivateKey (w.readFile cfg.KeyPath).1,
              .sshDial "tcp" cfg.Addr ⟨cfg.User,
                [.publicKeys [(w.parsePrivateKey (w.readFile cfg.KeyPath).1).1]] ++
                  (if cfg.Password ≠ "" then [.password cfg.Password] else [])⟩],
              .ret (w.sshDial "tcp" cfg.Addr ⟨cfg.User,
                [.publicKeys [(w.parsePrivateKey (w.readFile cfg.KeyPath).1).1]] ++
                  (if cfg.Password ≠ "" then [.password cfg.Password] else [])⟩)⟩ := by
  by_cases hk : cfg.KeyPath = ""
  · by_cases hp : cfg.Password = ""
    · simp [login, hk, hp]
    · simp [login, hk, hp, emit]
  · rcases hr : w.readFile cfg.KeyPath with ⟨key, _ | e⟩
    · rcases hq : w.parsePrivateKey key with ⟨signer, _ | e2⟩
      · by_cases hp : cfg.Password = ""
        · simp [login, hk, hp, hr, hq, emit]
        · simp [login, hk, hp, hr, hq, emit]
      · simp [login, hk, hr, hq, emit, logFatalf]
    · simp [login, hk, hr, emit]

theorem forIn_emit {α : Type} (g : α → Event) (xs : List α) :
    forIn xs PUnit.unit (fun x (_ : PUnit) =>
      (⟨[g x], .ret (ForInStep.yield PUnit.unit)⟩ : Proc (ForInStep PUnit))) =
      (⟨xs.map g, .ret PUnit.unit⟩ : Proc PUnit) := by
  induction xs with
  | nil => simp
  | cons x xs ih => simp [ih]

/-- The effects of `main` once the configuration is decoded, in terms of
what `login` does. -/
theorem main_decoded (w : World) (p : String) (cfg : config) (h : w.decodeFile p = (cfg, none)) :
    main w p =
      match (login w cfg.SSH).out with
      | .ret (client, none) =>
        ⟨.decodeFile p :: (login w cfg.SSH).trace ++
          [.printf "dial %s success" [.str cfg.SSH.Addr], .printf "ports: %v" [.ports cfg.Ports]] ++
          cfg.Ports.map (fun x => .goRunSession (newSession (":" ++ x.1) x.2 client) x.1 x.2), .block⟩
      | .ret (_, some e) => ⟨.decodeFile p :: (login w cfg.SSH).trace ++ [.fatal [.err e]], .exit⟩
      | .exit => ⟨.decodeFile p :: (login w cfg.SSH).trace, .exit⟩
      | .block => ⟨.decodeFile p :: (login w cfg.SSH).trace, .block⟩ := by
  rcases hl : login w cfg.SSH with ⟨t, (⟨c, _ | e⟩ | _ | _)⟩
  · simp [main, h, hl, emit, logPrintf, forIn_emit]
  · simp [main, h, hl, emit, logPrintf, logFatal]
  · simp [main, h, hl, emit, logPrintf, logFatal]
  · simp [main, h, hl, emit, logPrintf, logFatal]

/-! ### The relay: every move keeps the invariants -/

/-- An invariant is kept along every schedule once every step keeps it. -/
theorem run_inv (s : session) (conn : NetConn) (P : Relay → Prop)
    (hP : ∀ st t st1, P st → step s conn st t = some st1 → P st1)
    (sched : List Tid) : ∀ st, P st → P (Relay.run s conn st sched) := by
  induction sched with
  | nil => intro st h; simpa [Relay.run] using h
  | cons t ts ih =>
    intro st h
    unfold Relay.run
    cases hs : step s conn st t with
    | none => simpa using ih st h
    | some st1 => simpa using ih st1 (hP st t st1 h hs)

theorem read_closes (e e1 : Endpoint) (r : ReadRes) (h : e.read = some (r, e1)) :
    e1.closes = e.closes ∧ e1.wcap = e.wcap := by
  unfold Endpoint.read at h
  split at h
  · split at h
    · simp only [Option.some.injEq, Prod.mk.injEq] at h
      obtain ⟨-, rfl⟩ := h
      exact ⟨rfl, rfl⟩
    · simp only [Option.some.injEq, Prod.mk.injEq] at h
      obtain ⟨-, rfl⟩ := h
      exact ⟨rfl, rfl⟩
  · split at h
    · exact absurd h (by simp)
    · simp only [Option.some.injEq, Prod.mk.injEq] at h
      obtain ⟨-, rfl⟩ := h
      exact ⟨rfl, rfl⟩

theorem write_closes (e e1 : Endpoint) (bs acc : List UInt8) (ew : Option GoError)
    (h : e.write bs = (acc, ew, e1)) :
    e1.closes = e.closes ∧ (e.wcap = none → e1.wcap = none) ∧
      (e.closes = 0 → e.wcap = none → acc = bs ∧ ew = none) := by
  unfold Endpoint.write at h
  split at h
  · rename_i hc
    simp only [Prod.mk.injEq] at h
    obtain ⟨rfl, rfl, rfl⟩ := h
    exact ⟨rfl, fun x => x, fun x => absurd x hc⟩
  · split at h
    · simp only [Prod.mk.injEq] at h
      obtain ⟨rfl, rfl, rfl⟩ := h
      exact ⟨rfl, fun x => x, fun _ _ => ⟨rfl, rfl⟩⟩
    · rename_i k hk
      split at h
      · simp only [Prod.mk.injEq] at h
        obtain ⟨rfl, rfl, rfl⟩ := h
        exact ⟨rfl, fun x => by simp [hk] at x, fun _ x => by simp [hk] at x⟩
      · simp only [Prod.mk.injEq] at h
        obtain ⟨rfl, rfl, rfl⟩ := h
        exact ⟨rfl, fun x => by simp [hk] at x, fun _ x => by simp [hk] at x⟩

theorem step_move (s : session) (conn : NetConn) (st st1 : Relay) (t : Tid)
    (hs : step s conn st t = some st1) : Move s conn st st1 := by
  cases t with
  | main =>
    simp only [step, stepMain] at hs
    split at hs
    · rename_i h; cases hs; exact .add h
    · rename_i h; cases hs; exact .go1 h
    · rename_i h; cases hs; exact .go2 h
    · rename_i h
      split at hs
      · rename_i hw; cases hs; exact .wait h hw
      · cases hs
    · rename_i h; cases hs; exact .log h
    · cases hs
  | task d =>
    simp only [step, stepTask] at hs
    split at hs
    · cases hs
    · rename_i h
      split at hs
      · cases hs
      · rename_i r e hr
        split at hs
        · rename_i hb; cases hs; exact .readData d r e h hr hb
        · rename_i hb
          split at hs
          · rename_i he; cases hs; exact .readEnd d r e h hr (by simpa using hb) he
          · rename_i he; cases hs; exact .readNone d r e h hr (by simpa using hb) (by simpa using he)
    · rename_i r h
      split at hs
      · rename_i hc; cases hs; exact .writeEnd d r _ _ _ h rfl hc
      · rename_i hc; cases hs; exact .writeMore d r _ _ _ h rfl hc
    · rename_i h; cases hs; exact .close d h
    · rename_i h; cases hs; exact .done d h
    · cases hs

/-- An invariant is kept along every schedule once every move keeps it. -/
theorem run_move (s : session) (conn : NetConn) (P : Relay → Prop)
    (hP : ∀ st st1, P st → Move s conn st st1 → P st1)
    (sched : List Tid) (st : Relay) (h : P st) : P (Relay.run s conn st sched) :=
  run_inv s conn P (fun st t st1 h hs => hP st st1 h (step_move s conn st st1 t hs)) sched st h

theorem ctl_init (conn remote : NetConn) : Ctl (Relay.init conn remote) := by
  constructor <;> simp [Relay.init, NetConn.endpoint, TaskPC.closed]

theorem ctl_move (s : session) (conn : NetConn) (st st1 : Relay)
    (h : Ctl st) (m : Move s conn st st1) : Ctl st1 := by
  obtain ⟨inb, rem, wg, mpc, up, down, tr⟩ := st
  obtain ⟨h1, h2, h3, h4, h5, h6⟩ := h
  dsimp only at h1 h2 h3 h4 h5 h6
  cases m with
  | add hm =>
    dsimp only at hm; subst hm
    simp at h1 h2 h3 h4
    constructor <;> simp [Relay.setWg, Relay.setMain, Relay.log, h1, h2, h3, h5, h6]
  | go1 hm =>
    dsimp only at hm; subst hm
    simp at h1 h2 h3 h4
    constructor <;> simp [Relay.setWg, Relay.setMain, Relay.log, Relay.setPc, h1, h2, h3, h5, h6, TaskPC.closed]
  | go2 hm =>
    dsimp only at hm; subst hm
    simp at h1 h2 h3 h4
    constructor <;> simp [Relay.setWg, Relay.setMain, Relay.log, Relay.setPc, h1, h2, h3, h5, h6, TaskPC.closed]
  | wait hm hw =>
    dsimp only at hm hw; subst hm
    simp at h1 h2 h3 h4
    have hf : up = .finished ∧ down = .finished := by
      subst hw
      by_cases hu : up = .finished <;> by_cases hd : down = .finished <;> simp [hu, hd] at h3 ⊢
    constructor <;> simp [Relay.setWg, Relay.setMain, Relay.log, h1, h2, hf, h5, h6, hw]
  | log hm =>
    dsimp only at hm; subst hm
    simp at h1 h2 h3 h4
    constructor <;> simp [Relay.setWg, Relay.setMain, Relay.log, h1, h2, h3, h4, h5, h6]
  | readData d r e hpc hr hb =>
    have hc := read_closes _ _ _ hr
    cases d <;> simp only [Relay.pc, Relay.ep, Dir.src] at hpc hc <;> subst hpc <;>
      simp [TaskPC.closed] at h1 h2 h3 h4 h5 h6 <;>
      constructor <;>
      simp [Relay.setWg, Relay.setMain, Relay.log, Relay.setPc, Relay.setEp, Relay.ep, Dir.dst,
        Dir.src, Endpoint.close, TaskPC.closed, h1, h2, h3, h4, h5, h6, hc]
  | readEnd d r e hpc hr hb he =>
    have hc := read_closes _ _ _ hr
    cases d <;> simp only [Relay.pc, Relay.ep, Dir.src] at hpc hc <;> subst hpc <;>
      simp [TaskPC.closed] at h1 h2 h3 h4 h5 h6 <;>
      constructor <;>
      simp [Relay.setWg, Relay.setMain, Relay.log, Relay.setPc, Relay.setEp, Relay.ep, Dir.dst,
        Dir.src, Endpoint.close, TaskPC.closed, h1, h2, h3, h4, h5, h6, hc]
  | readNone d r e hpc hr hb he =>
    have hc := read_closes _ _ _ hr
    cases d <;> simp only [Relay.pc, Relay.ep, Dir.src] at hpc hc <;> subst hpc <;>
      simp [TaskPC.closed] at h1 h2 h3 h4 h5 h6 <;>
      constructor <;>
      simp [Relay.setWg, Relay.setMain, Relay.log, Relay.setPc, Relay.setEp, Relay.ep, Dir.dst,
        Dir.src, Endpoint.close, TaskPC.closed, h1, h2, h3, h4, h5, h6, hc]
  | writeEnd d r acc ew e hpc hw hx =>
    have hc := (write_closes _ _ _ _ _ hw).1
    cases d <;> simp only [Relay.pc, Relay.ep, Dir.dst] at hpc hc <;> subst hpc <;>
      simp [TaskPC.closed] at h1 h2 h3 h4 h5 h6 <;>
      constructor <;>
      simp [Relay.setWg, Relay.setMain, Relay.log, Relay.setPc, Relay.setEp, Relay.ep, Dir.dst,
        Dir.src, Endpoint.close, TaskPC.closed, h1, h2, h3, h4, h5, h6, hc]
  | writeMore d r acc ew e hpc hw hx =>
    have hc := (write_closes _ _ _ _ _ hw).1
    cases d <;> simp only [Relay.pc, Relay.ep, Dir.dst] at hpc hc <;> subst hpc <;>
      simp [TaskPC.closed] at h1 h2 h3 h4 h5 h6 <;>
      constructor <;>
      simp [Relay.setWg, Relay.setMain, Relay.log, Relay.setPc, Relay.setEp, Relay.ep, Dir.dst,
        Dir.src, Endpoint.close, TaskPC.closed, h1, h2, h3, h4, h5, h6, hc]
  | close d hpc =>
    have hc := True.intro
    cases d <;> simp only [Relay.pc, Relay.ep, Dir.dst] at hpc <;> subst hpc <;>
      simp [TaskPC.closed] at h1 h2 h3 h4 h5 h6 <;>
      constructor <;>
      simp [Relay.setWg, Relay.setMain, Relay.log, Relay.setPc, Relay.setEp, Relay.ep, Dir.dst,
        Dir.src, Endpoint.close, TaskPC.closed, h1, h2, h3, h4, h5, h6, hc]
  | done d hpc =>
    have hc := True.intro
    cases d <;> simp only [Relay.pc, Relay.ep, Dir.dst] at hpc <;> subst hpc <;>
      simp [TaskPC.closed] at h1 h2 h3 h4 h5 h6 <;>
      constructor <;>
      simp [Relay.setWg, Relay.setMain, Relay.log, Relay.setPc, Relay.setEp, Relay.ep, Dir.dst,
        Dir.src, Endpoint.close, TaskPC.closed, h1, h2, h3, h4, h5, h6, hc]

@[simp] theorem log_trace (st : Relay) (es : List Event) : (st.log es).trace = st.trace ++ es := rfl

@[simp] theorem log_pc (st : Relay) (es : List Event) (d : Dir) : (st.log es).pc d = st.pc d := by
  cases d <;> rfl

@[simp] theorem log_ep (st : Relay) (es : List Event) (sd : Side) : (st.log es).ep sd = st.ep sd := by
  cases sd <;> rfl

@[simp] theorem log_main (st : Relay) (es : List Event) : (st.log es).mainPC = st.mainPC := rfl

@[simp] theorem setMain_trace (st : Relay) (x : MainPC) : (st.setMain x).trace = st.trace := rfl

@[simp] theorem setMain_pc (st : Relay) (x : MainPC) (d : Dir) : (st.setMain x).pc d = st.pc d := by
  cases d <;> rfl

@[simp] theorem setMain_ep (st : Relay) (x : MainPC) (sd : Side) : (st.setMain x).ep sd = st.ep sd := by
  cases sd <;> rfl

@[simp] theorem setMain_main (st : Relay) (x : MainPC) : (st.setMain x).mainPC = x := rfl

@[simp] theorem setWg_trace (st : Relay) (n : Nat) : (st.setWg n).trace = st.trace := rfl

@[simp] theorem setWg_pc (st : Relay) (n : Nat) (d : Dir) : (st.setWg n).pc d = st.pc d := by
  cases d <;> rfl

@[simp] theorem setWg_ep (st : Relay) (n : Nat) (sd : Side) : (st.setWg n).ep sd = st.ep sd := by
  cases sd <;> rfl

@[simp] theorem setWg_main (st : Relay) (n : Nat) : (st.setWg n).mainPC = st.mainPC := rfl

@[simp] theorem setPc_trace (st : Relay) (d : Dir) (x : TaskPC) : (st.setPc d x).trace = st.trace := by
  cases d <;> rfl

@[simp] theorem setPc_pc (st : Relay) (d d1 : Dir) (x : TaskPC) :
    (st.setPc d x).pc d1 = if d1 = d then x else st.pc d1 := by
  cases d <;> cases d1 <;> rfl

@[simp] theorem setPc_ep (st : Relay) (d : Dir) (x : TaskPC) (sd : Side) :
    (st.setPc d x).ep sd = st.ep sd := by
  cases d <;> cases sd <;> rfl

@[simp] theorem setPc_main (st : Relay) (d : Dir) (x : TaskPC) : (st.setPc d x).mainPC = st.mainPC := by
  cases d <;> rfl

@[simp] theorem setEp_trace (st : Relay) (sd : Side) (e : Endpoint) : (st.setEp sd e).trace = st.trace := by
  cases sd <;> rfl

@[simp] theorem setEp_pc (st : Relay) (sd : Side) (e : Endpoint) (d : Dir) :
    (st.setEp sd e).pc d = st.pc d := by
  cases sd <;> cases d <;> rfl

@[simp] theorem setEp_ep (st : Relay) (sd sd1 : Side) (e : Endpoint) :
    (st.setEp sd e).ep sd1 = if sd1 = sd then e else st.ep sd1 := by
  cases sd <;> cases sd1 <;> rfl

@[simp] theorem setEp_main (st : Relay) (sd : Side) (e : Endpoint) : (st.setEp sd e).mainPC = st.mainPC := by
  cases sd <;> rfl

theorem precedes_nil (a b : Event) : Precedes a b [] := by
  intro pre post h
  simp at h

theorem precedes_append (a b : Event) (tr es : List Event) (h : Precedes a b tr)
    (h2 : b ∈ es → a ∈ tr) : Precedes a b (tr ++ es) := by
  intro pre post heq
  rcases List.append_eq_append_iff.mp heq with ⟨a1, rfl, h3⟩ | ⟨c1, rfl, h3⟩
  · exact List.mem_append_left _ (h2 (by rw [h3]; simp))
  · cases c1 with
    | nil =>
      simp only [List.nil_append] at h3
      simpa using h2 (by rw [← h3]; simp)
    | cons x c2 =>
      simp only [List.cons_append, List.cons.injEq] at h3
      obtain ⟨rfl, -⟩ := h3
      exact h pre c2 rfl

theorem noneAfter_nil (b : Event) (p : Event → Bool) : NoneAfter b p [] := by
  intro pre post h
  simp at h

theorem noneAfter_append (b : Event) (p : Event → Bool) (tr es : List Event)
    (h : NoneAfter b p tr) (h2 : b ∈ tr → ∀ e ∈ es, p e = false) (h3 : NoneAfter b p es) :
    NoneAfter b p (tr ++ es) := by
  intro pre post heq
  rcases List.append_eq_append_iff.mp heq with ⟨a1, rfl, h4⟩ | ⟨c1, rfl, h4⟩
  · exact h3 a1 post h4
  · cases c1 with
    | nil =>
      simp only [List.nil_append] at h4
      exact h3 [] post (by simpa using h4.symm)
    | cons x c2 =>
      simp only [List.cons_append, List.cons.injEq] at h4
      obtain ⟨rfl, rfl⟩ := h4
      intro e he
      rcases List.mem_append.mp he with he | he
      · exact h pre c2 rfl e he
      · exact h2 (by simp) e he

theorem noneAfter_one (b x : Event) (p : Event → Bool) : NoneAfter b p [x] := by
  intro pre post h
  rcases pre with _ | ⟨y, _ | ⟨z, l⟩⟩ <;> simp at h
  simp [h.2]

theorem noneAfter_two (b x y : Event) (p : Event → Bool) (h : x = b → p y = false) :
    NoneAfter b p [x, y] := by
  intro pre post heq
  rcases pre with _ | ⟨u, _ | ⟨v, _ | ⟨z, l⟩⟩⟩ <;> simp at heq
  · obtain ⟨rfl, rfl⟩ := heq
    simpa using h rfl
  · simp [heq.2.2]

@[simp] theorem copied_idle : TaskPC.idle.copied = false := rfl

@[simp] theorem copied_reading : TaskPC.reading.copied = false := rfl

@[simp] theorem copied_writing (r : ReadRes) : (TaskPC.writing r).copied = false := rfl

@[simp] theorem copied_closing : TaskPC.closing.copied = true := rfl

@[simp] theorem copied_signalling : TaskPC.signalling.copied = true := rfl

@[simp] theorem copied_finished : TaskPC.finished.copied = true := rfl

@[simp] theorem closed_idle : TaskPC.idle.closed = false := rfl

@[simp] theorem closed_reading : TaskPC.reading.closed = false := rfl

@[simp] theorem closed_writing (r : ReadRes) : (TaskPC.writing r).closed = false := rfl

@[simp] theorem closed_closing : TaskPC.closing.closed = false := rfl

@[simp] theorem closed_signalling : TaskPC.signalling.closed = true := rfl

@[simp] theorem closed_finished : TaskPC.finished.closed = true := rfl

theorem ord_init (s : session) (conn remote : NetConn) : Ord s conn (Relay.init conn remote) := by
  constructor <;> try intro d
  all_goals first
    | exact precedes_nil _ _
    | exact noneAfter_nil _ _
    | (cases d <;> simp [Relay.init, NetConn.endpoint, Relay.pc, Relay.ep, Dir.dst])
    | simp [Relay.init]

theorem ctl_waited (st : Relay) (h : Ctl st) (hm : st.mainPC = .log ∨ st.mainPC = .returned)
    (d : Dir) : st.pc d = .finished := by
  cases d
  · exact (h.waited hm).1
  · exact (h.waited hm).2

theorem ctl_idle (st : Relay) (h : Ctl st) (d : Dir)
    (hm : st.mainPC = .add ∨ st.mainPC = .go1 ∨ (d = .down ∧ st.mainPC = .go2)) :
    st.pc d = .idle := by
  cases d
  · rcases hm with hm | hm | ⟨hd, -⟩
    · exact h.up_idle.mpr (Or.inl hm)
    · exact h.up_idle.mpr (Or.inr hm)
    · cases hd
  · rcases hm with hm | hm | ⟨-, hm⟩
    · exact h.down_idle.mpr (Or.inl hm)
    · exact h.down_idle.mpr (Or.inr (Or.inl hm))
    · exact h.down_idle.mpr (Or.inr (Or.inr hm))

set_option maxHeartbeats 1600000 in
theorem ord_move (s : session) (conn : NetConn) (st st1 : Relay) (hc : Ctl st)
    (h : Ord s conn st) (m : Move s conn st st1) : Ord s conn st1 := by
  obtain ⟨h1, h2, h2m, h3, h4, h5, h6, h7, h8⟩ := h
  have c1 := h2 .up
  have c2 := h2 .down
  have m1 := h2m .up
  have m2 := h2m .down
  simp only [Dir.dst] at c1 c2 m1 m2
  have ia : st.mainPC = .add → st.pc .up = .idle ∧ st.pc .down = .idle := fun hm =>
    ⟨ctl_idle st hc .up (Or.inl hm), ctl_idle st hc .down (Or.inl hm)⟩
  have ig1 : st.mainPC = .go1 → st.pc .up = .idle ∧ st.pc .down = .idle := fun hm =>
    ⟨ctl_idle st hc .up (Or.inr (Or.inl hm)), ctl_idle st hc .down (Or.inr (Or.inl hm))⟩
  have ig2 : st.mainPC = .go2 → st.pc .down = .idle := fun hm =>
    ctl_idle st hc .down (Or.inr (Or.inr ⟨rfl, hm⟩))
  have il : st.mainPC = .log → st.pc .up = .finished ∧ st.pc .down = .finished := fun hm =>
    ⟨ctl_waited st hc (Or.inl hm) .up, ctl_waited st hc (Or.inl hm) .down⟩
  rcases m with hm | hm | hm | ⟨hm, hw⟩ | hm | ⟨d, r, e, hpc, hr, hb⟩ | ⟨d, r, e, hpc, hr, hb, he⟩ |
    ⟨d, r, e, hpc, hr, hb, he⟩ | ⟨d, r, acc, ew, e, hpc, hw, hx⟩ |
    ⟨d, r, acc, ew, e, hpc, hw, hx⟩ | ⟨d, hpc⟩ | ⟨d, hpc⟩
  all_goals try have ia := ia hm
  all_goals try have ig1 := ig1 hm
  all_goals try have ig2 := ig2 hm
  all_goals try have il := il hm
  all_goals try cases d
  all_goals
    refine ⟨fun d0 => ?_, fun d0 => ?_, fun d0 => ?_, fun d0 => ?_, ?_, fun d0 => ?_,
      fun d0 => ?_, fun d0 => ?_, fun d0 => ?_⟩
  all_goals
    simp only [log_trace, setPc_trace, setEp_trace, setWg_trace, setMain_trace,
      List.append_assoc, List.cons_append, List.nil_append]
  all_goals first
    | refine precedes_append _ _ _ _ (h5 d0) ?_
    | refine noneAfter_append _ _ _ _ (h6 d0) ?_ (noneAfter_one _ _ _)
    | refine noneAfter_append _ _ _ _ (h6 d0) ?_ (noneAfter_two _ _ _ _ (by simp [Event.copies]))
    | refine precedes_append _ _ _ _ (h7 d0) ?_
    | refine precedes_append _ _ _ _ (h8 d0) ?_
    | skip
  all_goals first
    | (cases d0 <;>
        simp [List.count_cons, List.count_singleton, Event.copies, Dir.src, Dir.dst, *])
    | simp [List.count_cons, List.count_singleton, Event.copies, Dir.src, Dir.dst, *]

@[simp] theorem pending_idle : TaskPC.idle.pending = [] := rfl

@[simp] theorem pending_reading : TaskPC.reading.pending = [] := rfl

@[simp] theorem pending_writing (r : ReadRes) : (TaskPC.writing r).pending = r.bytes := rfl

@[simp] theorem pending_closing : TaskPC.closing.pending = [] := rfl

@[simp] theorem pending_signalling : TaskPC.signalling.pending = [] := rfl

@[simp] theorem pending_finished : TaskPC.finished.pending = [] := rfl

theorem pending_of_copied (pc : TaskPC) (h : pc.copied = true) : pc.pending = [] := by
  cases pc <;> simp at h ⊢

theorem readBytes_append (sd : Side) (xs ys : List Event) :
    readBytes sd (xs ++ ys) = readBytes sd xs ++ readBytes sd ys := by
  induction xs with
  | nil => simp [readBytes]
  | cons x xs ih =>
    cases x <;> simp [readBytes, ih]
    split <;> simp

theorem writtenBytes_append (sd : Side) (xs ys : List Event) :
    writtenBytes sd (xs ++ ys) = writtenBytes sd xs ++ writtenBytes sd ys := by
  induction xs with
  | nil => simp [writtenBytes]
  | cons x xs ih =>
    cases x <;> simp [writtenBytes, ih]
    split <;> simp

theorem ctl_closes (st : Relay) (h : Ctl st) (d : Dir) :
    (st.ep d.dst).closes = if (st.pc d).closed = true then 1 else 0 := by
  cases d
  · exact h.remote_closes
  · exact h.inbound_closes

@[simp] theorem close_wcap (e : Endpoint) : e.close.wcap = e.wcap := rfl

theorem flow_init (conn remote : NetConn) (h1 : conn.wcap = none) (h2 : remote.wcap = none) :
    Flow (Relay.init conn remote) := by
  refine ⟨fun sd => ?_, fun d => ?_⟩
  · cases sd <;> simp [Relay.init, Relay.ep, NetConn.endpoint, h1, h2]
  · cases d <;> simp [Relay.init, Relay.pc, readBytes, writtenBytes]

theorem flow_move (s : session) (conn : NetConn) (st st1 : Relay) (hc : Ctl st)
    (h : Flow st) (m : Move s conn st st1) : Flow st1 := by
  obtain ⟨w1, b1⟩ := h
  have wi := w1 .inbound
  have wr := w1 .remote
  have bu := b1 .up
  have bd := b1 .down
  have zu := ctl_closes st hc .up
  have zd := ctl_closes st hc .down
  simp only [Dir.src, Dir.dst] at bu bd zu zd
  have ig1 : st.mainPC = .go1 → st.pc .up = .idle := fun hm =>
    ctl_idle st hc .up (Or.inr (Or.inl hm))
  have ig2 : st.mainPC = .go2 → st.pc .down = .idle := fun hm =>
    ctl_idle st hc .down (Or.inr (Or.inr ⟨rfl, hm⟩))
  rcases m with hm | hm | hm | ⟨hm, hw⟩ | hm | ⟨d, r, e, hpc, hr, hb⟩ | ⟨d, r, e, hpc, hr, hb, he⟩ |
    ⟨d, r, e, hpc, hr, hb, he⟩ | ⟨d, r, acc, ew, e, hpc, hw, hx⟩ |
    ⟨d, r, acc, ew, e, hpc, hw, hx⟩ | ⟨d, hpc⟩ | ⟨d, hpc⟩
  all_goals try have hpc := ig1 hm
  all_goals try have hpc := ig2 hm
  all_goals try have hr1 := (read_closes _ _ _ hr).2
  all_goals try have hw0 := write_closes _ _ _ _ _ hw
  all_goals try cases d
  all_goals try simp only [Dir.src, Dir.dst] at hr1
  all_goals try simp only [Dir.src, Dir.dst] at hw0
  all_goals try rw [hpc] at zu
  all_goals try rw [hpc] at zd
  all_goals try have hw1 := hw0.2.1 (by first | exact wi | exact wr)
  all_goals try
    have hw2 := (hw0.2.2 (by first | simpa using zu | simpa using zd)
      (by first | exact wi | exact wr)).1
  all_goals try simp only [hpc, pending_idle, pending_reading, pending_writing, pending_closing,
    pending_signalling, List.append_nil] at bu
  all_goals try simp only [hpc, pending_idle, pending_reading, pending_writing, pending_closing,
    pending_signalling, List.append_nil] at bd
  all_goals refine ⟨fun sd => ?_, fun d0 => ?_⟩
  all_goals first
    | (cases sd <;>
        simp [readBytes_append, writtenBytes_append, readBytes, writtenBytes, Dir.src, Dir.dst, *])
    | (cases d0 <;>
        simp [readBytes_append, writtenBytes_append, readBytes, writtenBytes, Dir.src, Dir.dst, *])

@[simp] theorem ended_idle : TaskPC.idle.ended = false := rfl
@[simp] theorem ended_reading : TaskPC.reading.ended = false := rfl
@[simp] theorem ended_writing (r : ReadRes) : (TaskPC.writing r).ended = r.err.isSome := rfl
@[simp] theorem ended_closing : TaskPC.closing.ended = true := rfl
@[simp] theorem ended_signalling : TaskPC.signalling.ended = true := rfl
@[simp] theorem ended_finished : TaskPC.finished.ended = true := rfl
@[simp] theorem close_rscript (e : Endpoint) : e.close.rscript = e.rscript := rfl
@[simp] theorem close_closes (e : Endpoint) : e.close.closes = e.closes + 1 := rfl

theorem streamBytes_cons (r : ReadRes) (rs : List ReadRes) :
    streamBytes (r :: rs) = r.bytes ++ (if r.err.isSome = true then [] else streamBytes rs) := by
  rw [streamBytes]
  split <;> simp

theorem read_script (e e1 : Endpoint) (r : ReadRes) (h : e.read = some (r, e1)) :
    allBytes e.rscript = r.bytes ++ allBytes e1.rscript ∧
      (e.closes = 0 → e.rscript = r :: e1.rscript) := by
  unfold Endpoint.read at h
  split at h
  · rename_i hc
    split at h
    · rename_i k r0 rs hl hs
      simp only [Option.some.injEq, Prod.mk.injEq] at h
      obtain ⟨rfl, rfl⟩ := h
      exact ⟨by rw [hs]; rfl, fun x => absurd x hc⟩
    · simp only [Option.some.injEq, Prod.mk.injEq] at h
      obtain ⟨rfl, rfl⟩ := h
      exact ⟨rfl, fun x => absurd x hc⟩
  · split at h
    · exact absurd h (by simp)
    · rename_i r0 rs hs
      simp only [Option.some.injEq, Prod.mk.injEq] at h
      obtain ⟨rfl, rfl⟩ := h
      exact ⟨by rw [hs]; rfl, fun _ => hs⟩

theorem write_script (e e1 : Endpoint) (bs acc : List UInt8) (ew : Option GoError)
    (h : e.write bs = (acc, ew, e1)) : e1.rscript = e.rscript := by
  unfold Endpoint.write at h
  split at h
  · simp only [Prod.mk.injEq] at h
    obtain ⟨-, -, rfl⟩ := h
    rfl
  · split at h
    · simp only [Prod.mk.injEq] at h
      obtain ⟨-, -, rfl⟩ := h
      rfl
    · split at h
      · simp only [Prod.mk.injEq] at h
        obtain ⟨-, -, rfl⟩ := h
        rfl
      · simp only [Prod.mk.injEq] at h
        obtain ⟨-, -, rfl⟩ := h
        rfl

theorem feed_init (conn remote : NetConn) : Feed conn remote (Relay.init conn remote) := by
  refine ⟨fun d => ?_, fun d _ => ?_⟩
  · cases d <;> simp [Relay.init, Relay.ep, NetConn.endpoint, readBytes, peerOf, Dir.src]
  · cases d <;> simp [Relay.init, Relay.ep, Relay.pc, NetConn.endpoint, readBytes, peerOf, Dir.src]

theorem closedFirst_nil (a b : Event) : ¬ ClosedFirst a b [] := by
  rintro ⟨pre, post, h, -⟩
  simp at h

theorem closedFirst_append (a b : Event) (tr es : List Event) (h : ClosedFirst a b (tr ++ es)) :
    ClosedFirst a b tr ∨ (a ∈ es ∧ b ∉ tr) := by
  obtain ⟨pre, post, heq, hb⟩ := h
  rcases List.append_eq_append_iff.mp heq with ⟨a1, rfl, h3⟩ | ⟨c1, rfl, h3⟩
  · right
    exact ⟨by rw [h3]; simp, fun hx => hb (List.mem_append_left _ hx)⟩
  · cases c1 with
    | nil =>
      right
      simp only [List.nil_append] at h3
      exact ⟨by rw [← h3]; simp, by simpa using hb⟩
    | cons x c2 =>
      left
      simp only [List.cons_append, List.cons.injEq] at h3
      obtain ⟨rfl, -⟩ := h3
      exact ⟨pre, c2, rfl, hb⟩

theorem whole_init (conn remote : NetConn) : Whole conn remote (Relay.init conn remote) := by
  refine ⟨fun d h => ?_⟩
  exact absurd h (closedFirst_nil _ _)

theorem feed_move (s : session) (conn remote cn : NetConn) (st st1 : Relay) (hc : Ctl st)
    (hf : Flow st) (h : Feed conn remote st) (m : Move s cn st st1) : Feed conn remote st1 := by
  obtain ⟨f1, f2⟩ := h
  have su := f1 .up
  have sd := f1 .down
  have wu := f2 .up
  have wd := f2 .down
  have zu := ctl_closes st hc .up
  have zd := ctl_closes st hc .down
  have wi := hf.wcap_none .inbound
  have wr := hf.wcap_none .remote
  simp only [Dir.src, Dir.dst, peerOf] at su sd wu wd zu zd
  have ig1 : st.mainPC = .go1 → st.pc .up = .idle := fun hm =>
    ctl_idle st hc .up (Or.inr (Or.inl hm))
  have ig2 : st.mainPC = .go2 → st.pc .down = .idle := fun hm =>
    ctl_idle st hc .down (Or.inr (Or.inr ⟨rfl, hm⟩))
  rcases m with hm | hm | hm | ⟨hm, hw⟩ | hm | ⟨d, r, e, hpc, hr, hb⟩ | ⟨d, r, e, hpc, hr, hb, he⟩ |
    ⟨d, r, e, hpc, hr, hb, he⟩ | ⟨d, r, acc, ew, e, hpc, hw, hx⟩ |
    ⟨d, r, acc, ew, e, hpc, hw, hx⟩ | ⟨d, hpc⟩ | ⟨d, hpc⟩
  all_goals try have hpc := ig1 hm
  all_goals try have hpc := ig2 hm
  all_goals try have hr1 := (read_closes _ _ _ hr).1
  all_goals try have hr2 := read_script _ _ _ hr
  all_goals try have hw0 := write_closes _ _ _ _ _ hw
  all_goals try have hw3 := write_script _ _ _ _ _ hw
  all_goals try cases d
  all_goals try simp only [Dir.src, Dir.dst] at hr1
  all_goals try simp only [Dir.src, Dir.dst] at hr2
  all_goals try simp only [Dir.src, Dir.dst] at hw0
  all_goals try simp only [Dir.src, Dir.dst] at hw3
  all_goals try
    have hw2 := hw0.2.2 (by first | (rw [hpc] at zu; simpa using zu) | (rw [hpc] at zd; simpa using zd))
      (by first | exact wi | exact wr)
  all_goals try (obtain ⟨rfl, rfl⟩ := hw2)
  all_goals try have hw1 := hw0.1
  all_goals clear zu zd wi wr
  all_goals try clear hw0
  all_goals refine ⟨fun d0 => ?_, fun d0 => ?_⟩
  all_goals cases d0
  all_goals simp only [log_trace, log_pc, log_ep, setMain_trace, setMain_pc, setMain_ep,
    setWg_trace, setWg_pc, setWg_ep, setPc_trace, setPc_pc, setPc_ep, setEp_trace, setEp_pc,
    setEp_ep, readBytes_append, readBytes, Dir.src, Dir.dst, peerOf, List.append_nil,
    List.append_assoc, reduceCtorEq, if_true, if_false, close_rscript, close_closes]
  all_goals try exact su
  all_goals try exact sd
  all_goals try exact wu
  all_goals try exact wd
  all_goals first
    | (rw [← hr2.1]; first | exact su | exact sd)
    | (rw [hw3]; first | exact su | exact sd)
    | (intro hcl
       exact False.elim hcl)
    | (intro hcl
       try rw [hr1] at hcl
       try rw [hw1] at hcl
       try rw [hw3]
       try simp only [Option.isSome_none, Bool.false_eq_true, ne_eq, not_true_eq_false, false_or,
         not_false_eq_true, Bool.not_eq_true] at hx
       first
         | (have h0 := wu hcl
            try rw [hr2.2 hcl, streamBytes_cons] at h0
            clear wu wd su sd hcl
            try clear hr2
            simp [*] at h0 ⊢
            try exact h0)
         | (have h0 := wd hcl
            try rw [hr2.2 hcl, streamBytes_cons] at h0
            clear wu wd su sd hcl
            try clear hr2
            simp [*] at h0 ⊢
            try exact h0))

theorem closedFirst_mem (a b : Event) (tr : List Event) (h : ClosedFirst a b tr) : a ∈ tr := by
  obtain ⟨pre, post, rfl, -⟩ := h
  simp

set_option maxHeartbeats 1600000 in
theorem whole_move (s : session) (conn remote cn : NetConn) (st st1 : Relay) (hc : Ctl st)
    (ho : Ord s cn st) (hf : Flow st) (hfe : Feed conn remote st) (h : Whole conn remote st)
    (m : Move s cn st st1) : Whole conn remote st1 := by
  have ku := ho.close_iff .up
  have kd := ho.close_iff .down
  have zu := ctl_closes st hc .up
  have zd := ctl_closes st hc .down
  have bu := hf.bytes .up
  have bd := hf.bytes .down
  have wu := hfe.whole .up
  have wd := hfe.whole .down
  have fu := h.first .up
  have fd := h.first .down
  simp only [Dir.src, Dir.dst, peerOf] at ku kd zu zd bu bd wu wd fu fd
  rcases m with hm | hm | hm | ⟨hm, hw⟩ | hm | ⟨d, r, e, hpc, hr, hb⟩ | ⟨d, r, e, hpc, hr, hb, he⟩ |
    ⟨d, r, e, hpc, hr, hb, he⟩ | ⟨d, r, acc, ew, e, hpc, hw, hx⟩ |
    ⟨d, r, acc, ew, e, hpc, hw, hx⟩ | ⟨d, hpc⟩ | ⟨d, hpc⟩
  all_goals try cases d
  all_goals refine ⟨fun d0 hcf => ?_⟩
  all_goals cases d0
  all_goals simp only [log_trace, setMain_trace, setWg_trace, setPc_trace, setEp_trace, Dir.src,
    Dir.dst, peerOf, List.append_assoc, List.cons_append, List.nil_append] at hcf ⊢
  all_goals rcases closedFirst_append _ _ _ _ hcf with h1 | ⟨h1, h2⟩
  all_goals first
    | (simp at h1; done)
    | (exfalso
       have hcl := ku.mp (closedFirst_mem _ _ _ h1)
       rw [hpc] at hcl
       simp at hcl
       done)
    | (exfalso
       have hcl := kd.mp (closedFirst_mem _ _ _ h1)
       rw [hpc] at hcl
       simp at hcl
       done)
    | (have e0 := fu h1
       simp [readBytes_append, writtenBytes_append, readBytes, writtenBytes, e0.1, e0.2])
    | (have e0 := fd h1
       simp [readBytes_append, writtenBytes_append, readBytes, writtenBytes, e0.1, e0.2])
    | (have hn := mt kd.mpr h2
       have hz : (st.ep .inbound).closes = 0 := by rw [zd]; simp [hn]
       have e1 := wu hz
       rw [hpc] at e1 bu
       simp only [ended_closing, pending_closing, if_true, List.append_nil] at e1 bu
       simp [readBytes_append, writtenBytes_append, readBytes, writtenBytes, e1, bu])
    | (have hn := mt ku.mpr h2
       have hz : (st.ep .remote).closes = 0 := by rw [zu]; simp [hn]
       have e1 := wd hz
       rw [hpc] at e1 bd
       simp only [ended_closing, pending_closing, if_true, List.append_nil] at e1 bd
       simp [readBytes_append, writtenBytes_append, readBytes, writtenBytes, e1, bd])

theorem run_ctl_ord (s : session) (conn remote : NetConn) (sched : List Tid) :
    Ctl (Relay.run s conn (Relay.init conn remote) sched) ∧
      Ord s conn (Relay.run s conn (Relay.init conn remote) sched) :=
  run_move s conn (fun st => Ctl st ∧ Ord s conn st)
    (fun st st1 h m => ⟨ctl_move s conn st st1 h.1 m, ord_move s conn st st1 h.1 h.2 m⟩)
    sched _ ⟨ctl_init conn remote, ord_init s conn remote⟩

theorem run_flow (s : session) (conn remote : NetConn) (sched : List Tid)
    (h1 : conn.wcap = none) (h2 : remote.wcap = none) :
    Flow (Relay.run s conn (Relay.init conn remote) sched) :=
  (run_move s conn (fun st => Ctl st ∧ Flow st)
    (fun st st1 h m => ⟨ctl_move s conn st st1 h.1 m, flow_move s conn st st1 h.1 h.2 m⟩)
    sched _ ⟨ctl_init conn remote, flow_init conn remote h1 h2⟩).2

theorem run_feed (s : session) (conn remote : NetConn) (sched : List Tid)
    (h1 : conn.wcap = none) (h2 : remote.wcap = none) :
    Feed conn remote (Relay.run s conn (Relay.init conn remote) sched) ∧
      Whole conn remote (Relay.run s conn (Relay.init conn remote) sched) :=
  (run_move s conn
    (fun st => (Ctl st ∧ Ord s conn st) ∧ Flow st ∧ Feed conn remote st ∧ Whole conn remote st)
    (fun st st1 h m =>
      ⟨⟨ctl_move s conn st st1 h.1.1 m, ord_move s conn st st1 h.1.1 h.1.2 m⟩,
        flow_move s conn st st1 h.1.1 h.2.1 m,
        feed_move s conn remote conn st st1 h.1.1 h.2.1 h.2.2.1 m,
        whole_move s conn remote conn st st1 h.1.1 h.1.2 h.2.1 h.2.2.1 h.2.2.2 m⟩)
    sched _
    ⟨⟨ctl_init conn remote, ord_init s conn remote⟩, flow_init conn remote h1 h2,
      feed_init conn remote, whole_init conn remote⟩).2.2

theorem closedFirst_drop (a b : Event) (pre tr : List Event) (h : ClosedFirst a b (pre ++ tr))
    (ha : a ∉ pre) : ClosedFirst a b tr := by
  obtain ⟨p, post, heq, hb⟩ := h
  rcases List.append_eq_append_iff.mp heq with ⟨a1, rfl, h3⟩ | ⟨c1, rfl, h3⟩
  · exact ⟨a1, post, h3, fun hx => hb (List.mem_append_right _ hx)⟩
  · cases c1 with
    | nil =>
      simp only [List.nil_append] at h3
      exact ⟨[], post, by simpa using h3.symm, by simp⟩
    | cons x c2 =>
      simp only [List.cons_append, List.cons.injEq] at h3
      obtain ⟨rfl, -⟩ := h3
      exact absurd (by simp) ha

theorem copied_of_closed (pc : TaskPC) (h : pc.closed = true) : pc.copied = true := by
  cases pc <;> simp at h ⊢

theorem move_no_dial (s : session) (conn : NetConn) (st st1 : Relay)
    (h : ∀ e ∈ st.trace, e.isDial = false) (m : Move s conn st st1) :
    ∀ e ∈ st1.trace, e.isDial = false := by
  cases m <;> intro e he <;>
    simp only [log_trace, setPc_trace, setEp_trace, setWg_trace, setMain_trace, List.mem_append,
      List.mem_singleton] at he <;>
    rcases he with he | he <;>
    first
      | exact h e he
      | (subst he; rfl)
      | (rcases he with he | he
         · exact h e he
         · subst he; rfl)

theorem relay_no_dial (s : session) (conn remote : NetConn) (sched : List Tid) :
    ∀ e ∈ (relay s conn remote sched).trace, e.isDial = false :=
  run_move s conn (fun st => ∀ e ∈ st.trace, e.isDial = false)
    (fun st st1 h m => move_no_dial s conn st st1 h m) sched _ (by simp [Relay.init])

/-- The effects of `handleConn` in terms of the answer to its dial. -/
theorem handleConn_eq (w : World) (s : session) (conn : NetConn) (sched : List Tid) :
    s.handleConn w conn sched =
      match (w.clientDial s.client "tcp" s.remoteAddr).2 with
      | some _ =>
        ⟨[.printf "accept %s" [.str conn.remoteAddr], .dial s.client "tcp" s.remoteAddr,
          .printf "dial %s error" [.str s.remoteAddr]], .ret ()⟩
      | none =>
        ⟨[.printf "accept %s" [.str conn.remoteAddr], .dial s.client "tcp" s.remoteAddr,
          .printf "%s -> %s connected." [.str conn.remoteAddr, .str s.remoteAddr]] ++
          (relay s conn (w.clientDial s.client "tcp" s.remoteAddr).1 sched).trace,
          (relay s conn (w.clientDial s.client "tcp" s.remoteAddr).1 sched).out⟩ := by
  rcases hd : w.clientDial s.client "tcp" s.remoteAddr with ⟨remote, _ | e⟩
  · simp [session.handleConn, hd, emit, logPrintf]
  · simp [session.handleConn, hd, emit, logPrintf]

theorem precedes_prepend (a b : Event) (pre tr : List Event) (h : Precedes a b tr)
    (hb : b ∉ pre) : Precedes a b (pre ++ tr) := by
  intro p post heq
  rcases List.append_eq_append_iff.mp heq with ⟨a1, rfl, h3⟩ | ⟨c1, rfl, h3⟩
  · exact List.mem_append_right _ (h a1 post h3)
  · cases c1 with
    | nil =>
      simp only [List.nil_append] at h3
      exact absurd (h [] post (by simpa using h3.symm)) (by simp)
    | cons x c2 =>
      simp only [List.cons_append, List.cons.injEq] at h3
      obtain ⟨rfl, -⟩ := h3
      exact absurd (by simp) hb

theorem noneAfter_prepend (b : Event) (p : Event → Bool) (pre tr : List Event)
    (h : NoneAfter b p tr) (hb : b ∉ pre) : NoneAfter b p (pre ++ tr) := by
  intro q post heq
  rcases List.append_eq_append_iff.mp heq with ⟨a1, rfl, h3⟩ | ⟨c1, rfl, h3⟩
  · exact h a1 post h3
  · cases c1 with
    | nil =>
      simp only [List.nil_append] at h3
      exact h [] post (by simpa using h3.symm)
    | cons x c2 =>
      simp only [List.cons_append, List.cons.injEq] at h3
      obtain ⟨rfl, -⟩ := h3
      exact absurd (by simp) hb

/-! ### The claims -/

/-- C1: when both `KeyPath` and `Password` are empty, `login` returns a nil
client with a non-nil error, and its trace is empty: it has read no file and
made no dial. -/
theorem login_without_credentials (w : World) (cfg : sshServer)
    (hk : cfg.KeyPath = "") (hp : cfg.Password = "") :
    (∃ e, (login w cfg).out = .ret (none, some e)) ∧ (login w cfg).trace = [] := by
  rw [login_empty w cfg hk hp]
  exact ⟨⟨_, rfl⟩, rfl⟩

theorem login_without_credentials_witness :
    (∃ e, (login w0 ⟨"h:22", "u", "", ""⟩).out = .ret (none, some e)) ∧
      (login w0 ⟨"h:22", "u", "", ""⟩).trace = [] :=
  login_without_credentials w0 ⟨"h:22", "u", "", ""⟩ rfl rfl

/-- C3, as stated, fails: in the world `w0` the server accepts the password
`pw` (the dial succeeds with the password method alone and with every method
list that holds it), yet with a key path naming an unreadable file `login`
reads the file, makes no dial, and returns a nil client with an error. -/
theorem login_working_password_unreadable_key :
    (⟨"h:22", "u", "pw", "/x"⟩ : sshServer).Password ≠ "" ∧
      w0.sshDial "tcp" "h:22" ⟨"u", [.password "pw"]⟩ = (some ⟨1⟩, none) ∧
      (∀ ms, AuthMethod.password "pw" ∈ ms → w0.sshDial "tcp" "h:22" ⟨"u", ms⟩ = (some ⟨1⟩, none)) ∧
      (w0.readFile "/x").2 = some ⟨"no such file"⟩ ∧
      login w0 ⟨"h:22", "u", "pw", "/x"⟩ =
        ⟨[.readFile "/x"], .ret (none, some ⟨"unable to read private key: no such file"⟩)⟩ := by
  refine ⟨by decide, by decide, ?_, by decide, by decide⟩
  intro ms hms
  simp [w0, hms]

/-- C3, amended: when at least one credential is set, the key file (if a key
path is set) can be read and parsed, and the SSH dial with the method list
built from the credentials that are set succeeds with client `c`, then `login`
returns `c` and a nil error; whereas with the same server, user and password
and a key path naming a file that cannot be read, `login` reads that file,
makes no dial, and returns a nil client with an error. -/
theorem login_succeeds (w : World) (cfg : sshServer) (c : Client)
    (hcred : cfg.KeyPath ≠ "" ∨ cfg.Password ≠ "")
    (hkey : cfg.KeyPath ≠ "" → (w.readFile cfg.KeyPath).2 = none ∧
      (w.parsePrivateKey (w.readFile cfg.KeyPath).1).2 = none)
    (hdial : w.sshDial "tcp" cfg.Addr ⟨cfg.User,
      (if cfg.KeyPath ≠ "" then
        [AuthMethod.publicKeys [(w.parsePrivateKey (w.readFile cfg.KeyPath).1).1]] else []) ++
      (if cfg.Password ≠ "" then [AuthMethod.password cfg.Password] else [])⟩ = (some c, none)) :
    (login w cfg).out = .ret (some c, none) ∧
      ∀ (p : String) (e : GoError), p ≠ "" → (w.readFile p).2 = some e →
        login w ⟨cfg.Addr, cfg.User, cfg.Password, p⟩ =
          ⟨[.readFile p], .ret (none, some ⟨"unable to read private key: " ++ e.msg⟩)⟩ := by
  constructor
  · rw [login_cases]
    by_cases hk : cfg.KeyPath = ""
    · have hp : cfg.Password ≠ "" := by
        rcases hcred with h | h
        · exact absurd hk h
        · exact h
      simp [hk, hp] at hdial ⊢
      exact hdial
    · obtain ⟨h1, h2⟩ := hkey hk
      simp [hk, h1, h2] at hdial ⊢
      exact hdial
  · intro p e hp he
    rw [login_cases]
    simp [hp, he]

theorem login_succeeds_witness :
    (login w0 ⟨"h:22", "u", "pw", "/k"⟩).out = .ret (some ⟨1⟩, none) ∧
      login w0 ⟨"h:22", "u", "pw", "/x"⟩ =
        ⟨[.readFile "/x"], .ret (none, some ⟨"unable to read private key: no such file"⟩)⟩ :=
  ⟨(login_succeeds w0 ⟨"h:22", "u", "pw", "/k"⟩ ⟨1⟩ (by decide) (by decide) (by decide)).1,
    (login_succeeds w0 ⟨"h:22", "u", "pw", "/k"⟩ ⟨1⟩ (by decide) (by decide) (by decide)).2
      "/x" ⟨"no such file"⟩ (by decide) (by decide)⟩

/-- C4: whenever the trace of `login` holds a call of `ssh.Dial`, it holds
exactly one; that call is made on network tcp to `cfg.Addr` with user
`cfg.User` and the method list made of the public-key method iff `KeyPath` is
set, followed by the password method iff `Password` is set; this list is not
empty and has one entry per credential that is set; and `login` returns the
result of that call as it is. -/
theorem login_dial (w : World) (cfg : sshServer)
    (h : ∃ e ∈ (login w cfg).trace, e.isSshDial = true) :
    ((if cfg.KeyPath ≠ "" then
        [AuthMethod.publicKeys [(w.parsePrivateKey (w.readFile cfg.KeyPath).1).1]] else []) ++
      (if cfg.Password ≠ "" then [AuthMethod.password cfg.Password] else []) ≠ []) ∧
    ((if cfg.KeyPath ≠ "" then
        [AuthMethod.publicKeys [(w.parsePrivateKey (w.readFile cfg.KeyPath).1).1]] else []) ++
      (if cfg.Password ≠ "" then [AuthMethod.password cfg.Password] else [])).length =
      (if cfg.KeyPath ≠ "" then 1 else 0) + (if cfg.Password ≠ "" then 1 else 0) ∧
    (login w cfg).trace.filter Event.isSshDial =
      [.sshDial "tcp" cfg.Addr ⟨cfg.User,
        (if cfg.KeyPath ≠ "" then
          [AuthMethod.publicKeys [(w.parsePrivateKey (w.readFile cfg.KeyPath).1).1]] else []) ++
        (if cfg.Password ≠ "" then [AuthMethod.password cfg.Password] else [])⟩] ∧
    (login w cfg).out = .ret (w.sshDial "tcp" cfg.Addr ⟨cfg.User,
        (if cfg.KeyPath ≠ "" then
          [AuthMethod.publicKeys [(w.parsePrivateKey (w.readFile cfg.KeyPath).1).1]] else []) ++
        (if cfg.Password ≠ "" then [AuthMethod.password cfg.Password] else [])⟩) := by
  rw [login_cases] at h ⊢
  by_cases hk : cfg.KeyPath = ""
  · by_cases hp : cfg.Password = ""
    · simp [hk, hp] at h
    · simp [hk, hp, Event.isSshDial]
  · rcases hr : (w.readFile cfg.KeyPath).2 with _ | e
    · rcases hq : (w.parsePrivateKey (w.readFile cfg.KeyPath).1).2 with _ | e2
      · by_cases hp : cfg.Password = ""
        · simp [hk, hp, hr, hq, Event.isSshDial]
        · simp [hk, hp, hr, hq, Event.isSshDial]
      · simp [hk, hr, hq, Event.isSshDial] at h
    · simp [hk, hr, Event.isSshDial] at h

theorem login_dial_witness :
    [AuthMethod.publicKeys [⟨7⟩], AuthMethod.password "pw"] ≠ [] ∧
    [AuthMethod.publicKeys [⟨7⟩], AuthMethod.password "pw"].length = 1 + 1 ∧
    (login w0 ⟨"h:22", "u", "pw", "/k"⟩).trace.filter Event.isSshDial =
      [.sshDial "tcp" "h:22" ⟨"u", [.publicKeys [⟨7⟩], .password "pw"]⟩] ∧
    (login w0 ⟨"h:22", "u", "pw", "/k"⟩).out =
      .ret (w0.sshDial "tcp" "h:22" ⟨"u", [.publicKeys [⟨7⟩], .password "pw"]⟩) :=
  login_dial w0 ⟨"h:22", "u", "pw", "/k"⟩
    ⟨.sshDial "tcp" "h:22" ⟨"u", [.publicKeys [⟨7⟩], .password "pw"]⟩, by decide, by decide⟩

theorem login_trace_quiet (w : World) (cfg : sshServer) :
    ∀ e ∈ (login w cfg).trace, e.isGoRunSession = false ∧ e.isListen = false ∧
      (e.isSshDial = true → cfg.KeyPath ≠ "" → (w.readFile cfg.KeyPath).2 = none ∧
        (w.parsePrivateKey (w.readFile cfg.KeyPath).1).2 = none) := by
  rw [login_cases]
  by_cases hk : cfg.KeyPath = ""
  · by_cases hp : cfg.Password = ""
    · simp [hk, hp]
    · simp [hk, hp, Event.isSshDial, Event.isGoRunSession, Event.isListen]
  · rcases hr : (w.readFile cfg.KeyPath).2 with _ | e
    · rcases hq : (w.parsePrivateKey (w.readFile cfg.KeyPath).1).2 with _ | e2
      · simp [hk, hr, hq, Event.isSshDial, Event.isGoRunSession, Event.isListen]
      · simp [hk, hr, hq, Event.isSshDial, Event.isGoRunSession, Event.isListen]
    · simp [hk, hr, Event.isSshDial, Event.isGoRunSession, Event.isListen]

theorem login_key_failure (w : World) (cfg : sshServer) (hk : cfg.KeyPath ≠ "")
    (hf : (w.readFile cfg.KeyPath).2 ≠ none ∨
      (w.parsePrivateKey (w.readFile cfg.KeyPath).1).2 ≠ none) :
    (∃ e, (login w cfg).out = .ret (none, some e)) ∨
      ((login w cfg).out = .exit ∧ ∃ pre f, (login w cfg).trace = pre ++ [f] ∧ f.isFatal = true) := by
  have hl := login_cases w cfg
  rcases hr : (w.readFile cfg.KeyPath).2 with _ | e
  · rcases hq : (w.parsePrivateKey (w.readFile cfg.KeyPath).1).2 with _ | e2
    · simp [hr, hq] at hf
    · right
      simp only [hk, hr, hq, false_and, if_false] at hl
      rw [hl]
      exact ⟨rfl, [.readFile cfg.KeyPath, .parsePrivateKey (w.readFile cfg.KeyPath).1], _, rfl, rfl⟩
  · left
    simp only [hk, hr, false_and, if_false] at hl
    rw [hl]
    exact ⟨_, rfl⟩

/-- C5: when the configuration decodes, its key path is set, and the key file
cannot be read or its contents cannot be parsed, `main` ends in a process exit,
the last effect is a fatal log call, and no effect of `main` is a call of
`ssh.Dial`, the start of a session goroutine, or a call of `net.Listen`;
nothing is assumed about the password. -/
theorem main_key_failure (w : World) (p : String) (cfg : config)
    (hd : w.decodeFile p = (cfg, none)) (hk : cfg.SSH.KeyPath ≠ "")
    (hf : (w.readFile cfg.SSH.KeyPath).2 ≠ none ∨
      (w.parsePrivateKey (w.readFile cfg.SSH.KeyPath).1).2 ≠ none) :
    (main w p).out = .exit ∧
      (∃ pre f, (main w p).trace = pre ++ [f] ∧ f.isFatal = true) ∧
      ∀ e ∈ (main w p).trace,
        e.isSshDial = false ∧ e.isGoRunSession = false ∧ e.isListen = false := by
  have hq := login_trace_quiet w cfg.SSH
  have hnd : ∀ e ∈ (login w cfg.SSH).trace, e.isSshDial = false := by
    intro e he
    by_contra hc
    have h3 := (hq e he).2.2 (by simpa using hc) hk
    rcases hf with hf | hf
    · exact hf h3.1
    · exact hf h3.2
  rw [main_decoded w p cfg hd]
  rcases login_key_failure w cfg.SSH hk hf with ⟨e, he⟩ | ⟨he, pre, f, htr, hfat⟩
  · rw [he]
    refine ⟨rfl, ⟨.decodeFile p :: (login w cfg.SSH).trace, _, rfl, rfl⟩, ?_⟩
    intro x hx
    simp only [List.mem_append, List.mem_cons, List.mem_singleton, List.not_mem_nil, or_false] at hx
    rcases hx with (rfl | hx) | rfl
    · exact ⟨rfl, rfl, rfl⟩
    · exact ⟨hnd x hx, (hq x hx).1, (hq x hx).2.1⟩
    · exact ⟨rfl, rfl, rfl⟩
  · rw [he]
    refine ⟨rfl, ⟨.decodeFile p :: pre, f, by simp [htr], hfat⟩, ?_⟩
    intro x hx
    simp only [List.mem_cons] at hx
    rcases hx with rfl | hx
    · exact ⟨rfl, rfl, rfl⟩
    · exact ⟨hnd x hx, (hq x hx).1, (hq x hx).2.1⟩

theorem main_key_failure_witness :
    (main w1 "cfg.toml").out = .exit ∧
      (∃ pre f, (main w1 "cfg.toml").trace = pre ++ [f] ∧ f.isFatal = true) ∧
      ∀ e ∈ (main w1 "cfg.toml").trace,
        e.isSshDial = false ∧ e.isGoRunSession = false ∧ e.isListen = false :=
  main_key_failure w1 "cfg.toml" ⟨⟨"h:22", "u", "pw", "/x"⟩, [("8080", "10.0.0.5:80")]⟩ rfl
    (by decide) (Or.inl (by decide))

/-- The effects of `Run` in terms of the answer to `net.Listen`. -/
theorem Run_cases (w : World) (s : session) :
    s.Run w =
      match (w.listen "tcp" s.listenAddr).2 with
      | some e => ⟨[.listen "tcp" s.listenAddr], .ret (some e)⟩
      | none =>
        ⟨.listen "tcp" s.listenAddr :: (acceptLoop s (w.listen "tcp" s.listenAddr).1.accepts).trace,
          (acceptLoop s (w.listen "tcp" s.listenAddr).1.accepts).out⟩ := by
  rcases hr : w.listen "tcp" s.listenAddr with ⟨lis, _ | e⟩
  · simp [session.Run, hr, emit]
  · simp [session.Run, hr, emit]

/-- The effects of a session goroutine in terms of what its `Run` does. -/
theorem runSession_cases (w : World) (sess : session) (l r : String) :
    runSession w sess l r =
      match (sess.Run w).out with
      | .ret (some e) =>
        ⟨.printf "run session %s -> %s" [.str l, .str r] :: (sess.Run w).trace ++
          [.fatalf "run %s error:%s" [.str l, .err e]], .exit⟩
      | .ret none => ⟨.printf "run session %s -> %s" [.str l, .str r] :: (sess.Run w).trace, .ret ()⟩
      | .exit => ⟨.printf "run session %s -> %s" [.str l, .str r] :: (sess.Run w).trace, .exit⟩
      | .block => ⟨.printf "run session %s -> %s" [.str l, .str r] :: (sess.Run w).trace, .block⟩ := by
  rcases hr : sess.Run w with ⟨t, (_ | e) | _ | _⟩
  · simp [runSession, hr, emit, logPrintf]
  · simp [runSession, hr, emit, logPrintf, logFatalf]
  · simp [runSession, hr, emit, logPrintf]
  · simp [runSession, hr, emit, logPrintf]

theorem Run_trace (w : World) (s : session) :
    ∃ t, (s.Run w).trace = .listen "tcp" s.listenAddr :: t := by
  rw [Run_cases]
  cases (w.listen "tcp" s.listenAddr).2 <;> exact ⟨_, rfl⟩

theorem runSession_trace (w : World) (sess : session) (l r : String) :
    ∃ t, (runSession w sess l r).trace =
      .printf "run session %s -> %s" [.str l, .str r] :: .listen "tcp" sess.listenAddr :: t := by
  obtain ⟨t, ht⟩ := Run_trace w sess
  rw [runSession_cases]
  rcases (sess.Run w).out with (_ | e) | _ | _ <;> simp [ht]

theorem colon_append_injective : Function.Injective (fun x : String => ":" ++ x) := by
  intro a b h
  have h2 := congrArg String.data h
  simp only [String.data_append, List.append_cancel_left_eq] at h2
  exact String.ext h2

theorem filter_map_spawn (client : Option Client) (ports : List (String × String)) :
    (ports.map (fun x => Event.goRunSession (newSession (":" ++ x.1) x.2 client) x.1 x.2)).filter
      Event.isGoRunSession =
      ports.map (fun x => Event.goRunSession (newSession (":" ++ x.1) x.2 client) x.1 x.2) := by
  induction ports with
  | nil => rfl
  | cons x xs ih => simp [List.filter_cons, Event.isGoRunSession, ih]

theorem filterMap_map_spawn (client : Option Client) (ports : List (String × String)) :
    (ports.map (fun x => Event.goRunSession (newSession (":" ++ x.1) x.2 client) x.1 x.2)).filterMap
      Event.sessionOf = ports.map (fun x => newSession (":" ++ x.1) x.2 client) := by
  induction ports with
  | nil => rfl
  | cons x xs ih => simp [List.filterMap_cons, Event.sessionOf, ih]

theorem login_filter_spawn (w : World) (cfg : sshServer) :
    (login w cfg).trace.filter Event.isGoRunSession = [] ∧
      (login w cfg).trace.filterMap Event.sessionOf = [] := by
  have hq := login_trace_quiet w cfg
  constructor
  · rw [List.filter_eq_nil_iff]
    intro e he
    simp [(hq e he).1]
  · rw [List.filterMap_eq_nil_iff]
    intro e he
    have := (hq e he).1
    cases e <;> simp [Event.isGoRunSession] at this <;> rfl

/-- C7: once the configuration is decoded and `login` has returned `client`
with a nil error, the session goroutines that `main` starts are, in order, one
per entry `(local, remote)` of `Ports`, each for the session with listen
address `:local`, remote address `remote` and client `client`; there are as
many as entries; the keys of a map being distinct, so are the listen addresses
of the sessions started; and the goroutine of a session first logs and then
calls `net.Listen` on the listen address of that very session. -/
theorem main_sessions (w : World) (p : String) (cfg : config) (client : Option Client)
    (hd : w.decodeFile p = (cfg, none))
    (hl : (login w cfg.SSH).out = .ret (client, none))
    (hn : (cfg.Ports.map Prod.fst).Nodup) :
    (main w p).trace.filter Event.isGoRunSession =
        cfg.Ports.map (fun x => Event.goRunSession ⟨client, ":" ++ x.1, x.2⟩ x.1 x.2) ∧
      ((main w p).trace.filter Event.isGoRunSession).length = cfg.Ports.length ∧
      (((main w p).trace.filterMap Event.sessionOf).map session.listenAddr).Nodup ∧
      ∀ (sess : session) (l r : String), ∃ t, (runSession w sess l r).trace =
        .printf "run session %s -> %s" [.str l, .str r] :: .listen "tcp" sess.listenAddr :: t := by
  have hm := main_decoded w p cfg hd
  rw [hl] at hm
  simp only at hm
  have hf := login_filter_spawn w cfg.SSH
  have h1 : (main w p).trace.filter Event.isGoRunSession =
      cfg.Ports.map (fun x => Event.goRunSession ⟨client, ":" ++ x.1, x.2⟩ x.1 x.2) := by
    rw [hm]
    simp only [List.cons_append, List.filter_cons, List.filter_append, hf.1, Event.isGoRunSession,
      List.nil_append, List.filter_nil]
    exact filter_map_spawn client cfg.Ports
  refine ⟨h1, by rw [h1, List.length_map], ?_, ?_⟩
  · rw [hm]
    simp only [List.cons_append, List.filterMap_cons, List.filterMap_append, hf.2, Event.sessionOf,
      List.nil_append, List.filterMap_nil, filterMap_map_spawn, List.map_map]
    have : (session.listenAddr ∘ fun x : String × String => newSession (":" ++ x.1) x.2 client) =
        (fun x : String => ":" ++ x) ∘ Prod.fst := rfl
    rw [this, ← List.map_map]
    exact hn.map colon_append_injective
  · intro sess l r
    exact runSession_trace w sess l r

theorem main_sessions_witness :
    (main w0 "cfg.toml").trace.filter Event.isGoRunSession =
        [.goRunSession ⟨some ⟨1⟩, ":8080", "10.0.0.5:80"⟩ "8080" "10.0.0.5:80",
          .goRunSession ⟨some ⟨1⟩, ":2222", "10.0.0.6:22"⟩ "2222" "10.0.0.6:22"] ∧
      ((main w0 "cfg.toml").trace.filter Event.isGoRunSession).length = 2 ∧
      (((main w0 "cfg.toml").trace.filterMap Event.sessionOf).map session.listenAddr).Nodup ∧
      ∀ (sess : session) (l r : String), ∃ t, (runSession w0 sess l r).trace =
        .printf "run session %s -> %s" [.str l, .str r] :: .listen "tcp" sess.listenAddr :: t :=
  main_sessions w0 "cfg.toml"
    ⟨⟨"h:22", "u", "pw", ""⟩, [("8080", "10.0.0.5:80"), ("2222", "10.0.0.6:22")]⟩ (some ⟨1⟩)
    rfl (by decide) (by decide)

theorem acceptLoop_cons (s : session) (conn : NetConn) (err : Option GoError)
    (rest : List (NetConn × Option GoError)) :
    acceptLoop s ((conn, err) :: rest) =
      match err with
      | some e => ⟨[.accept s.listenAddr, .fatal [.err e]], .exit⟩
      | none =>
        ⟨.accept s.listenAddr :: .goHandleConn s conn :: (acceptLoop s rest).trace,
          (acceptLoop s rest).out⟩ := by
  cases err with
  | none => simp [acceptLoop, emit]
  | some e => simp [acceptLoop, emit, logFatal]

theorem acceptLoop_out (s : session) (l : List (NetConn × Option GoError)) :
    ((∃ a ∈ l, a.2 ≠ none) → (acceptLoop s l).out = .exit ∧
        ∃ pre f, (acceptLoop s l).trace = pre ++ [f] ∧ f.isFatal = true) ∧
      ((∀ a ∈ l, a.2 = none) → (acceptLoop s l).out = .block) ∧
      ∀ v, (acceptLoop s l).out ≠ .ret v := by
  induction l with
  | nil =>
    refine ⟨?_, ?_, ?_⟩
    · rintro ⟨a, ha, -⟩
      simp at ha
    · intro _
      rfl
    · intro v h
      simp [acceptLoop] at h
  | cons x xs ih =>
    obtain ⟨conn, err⟩ := x
    rw [acceptLoop_cons]
    cases err with
    | some e =>
      refine ⟨fun _ => ⟨rfl, [.accept s.listenAddr], _, rfl, rfl⟩, ?_, ?_⟩
      · intro h
        simpa using h (conn, some e) (by simp)
      · intro v h
        simp at h
    | none =>
      refine ⟨?_, ?_, ?_⟩
      · rintro ⟨a, ha, hne⟩
        simp only [List.mem_cons] at ha
        rcases ha with rfl | ha
        · simp at hne
        · obtain ⟨h1, pre, f, h2, h3⟩ := ih.1 ⟨a, ha, hne⟩
          exact ⟨h1, .accept s.listenAddr :: .goHandleConn s conn :: pre, f, by simp [h2], h3⟩
      · intro h
        exact ih.2.1 (fun a ha => h a (by simp [ha]))
      · intro v h
        exact ih.2.2 v h

/-- C8: (1) if `net.Listen` fails with `e`, `Run` makes that one call and no
call of `Accept`, and returns `e`, and the goroutine that called `Run` then
ends the process with `log.Fatalf`; (2) if the address is bound and some
`Accept` gives an error, `Run` ends the process with a fatal log call as its
last effect, and so does the goroutine; (3) `Run` never returns nil. -/
theorem Run_listener_errors (w : World) (s : session) :
    (∀ e, (w.listen "tcp" s.listenAddr).2 = some e →
      s.Run w = ⟨[.listen "tcp" s.listenAddr], .ret (some e)⟩ ∧
      (∀ x ∈ (s.Run w).trace, x.isAccept = false) ∧
      ∀ l r, runSession w s l r =
        ⟨[.printf "run session %s -> %s" [.str l, .str r], .listen "tcp" s.listenAddr,
          .fatalf "run %s error:%s" [.str l, .err e]], .exit⟩) ∧
    ((w.listen "tcp" s.listenAddr).2 = none →
      (∃ a ∈ (w.listen "tcp" s.listenAddr).1.accepts, a.2 ≠ none) →
      (s.Run w).out = .exit ∧
      (∃ pre f, (s.Run w).trace = pre ++ [f] ∧ f.isFatal = true) ∧
      ∀ l r, (runSession w s l r).out = .exit) ∧
    (s.Run w).out ≠ .ret none := by
  refine ⟨?_, ?_, ?_⟩
  · intro e he
    have hr : s.Run w = ⟨[.listen "tcp" s.listenAddr], .ret (some e)⟩ := by
      rw [Run_cases, he]
    refine ⟨hr, ?_, ?_⟩
    · rw [hr]
      intro x hx
      simp only [List.mem_singleton] at hx
      subst hx
      rfl
    · intro l r
      rw [runSession_cases, hr]
      rfl
  · intro hn ha
    obtain ⟨h1, pre, f, h2, h3⟩ := (acceptLoop_out s _).1 ha
    have hr : (s.Run w).out = .exit ∧
        (s.Run w).trace = .listen "tcp" s.listenAddr :: pre ++ [f] := by
      rw [Run_cases, hn]
      exact ⟨h1, by simp [h2]⟩
    refine ⟨hr.1, ⟨_, f, hr.2, h3⟩, ?_⟩
    intro l r
    rw [runSession_cases, hr.1]
  · rw [Run_cases]
    rcases hl : (w.listen "tcp" s.listenAddr).2 with _ | e
    · exact (acceptLoop_out s _).2.2 none
    · simp

theorem Run_listener_errors_witness :
    (s2.Run w0 = ⟨[.listen "tcp" ":80"], .ret (some ⟨"permission denied"⟩)⟩ ∧
      (∀ x ∈ (s2.Run w0).trace, x.isAccept = false) ∧
      ∀ l r, runSession w0 s2 l r =
        ⟨[.printf "run session %s -> %s" [.str l, .str r], .listen "tcp" ":80",
          .fatalf "run %s error:%s" [.str l, .err ⟨"permission denied"⟩]], .exit⟩) ∧
    ((s0.Run w0).out = .exit ∧
      (∃ pre f, (s0.Run w0).trace = pre ++ [f] ∧ f.isFatal = true) ∧
      ∀ l r, (runSession w0 s0 l r).out = .exit) :=
  ⟨(Run_listener_errors w0 s2).1 ⟨"permission denied"⟩ (by decide),
   (Run_listener_errors w0 s0).2.1 (by decide)
     ⟨(c0, some ⟨"too many open files"⟩), by decide, by decide⟩⟩

/-- The effects of `handleConn` when its dial succeeds. -/
theorem handleConn_success (w : World) (s : session) (conn remote : NetConn) (sched : List Tid)
    (hd : w.clientDial s.client "tcp" s.remoteAddr = (remote, none)) :
    s.handleConn w conn sched =
      ⟨[.printf "accept %s" [.str conn.remoteAddr], .dial s.client "tcp" s.remoteAddr,
        .printf "%s -> %s connected." [.str conn.remoteAddr, .str s.remoteAddr]] ++
        (relay s conn remote sched).trace, (relay s conn remote sched).out⟩ := by
  rw [handleConn_eq, hd]

/-- C2, at the failing input: in `w0` the dial of `10.0.0.6:22` fails; under
every schedule `handleConn` then makes exactly three effects (the accept line,
the dial, the dial-failure line) and returns, so the inbound connection is
never closed; `Run` on the same session starts a `handleConn` goroutine for
each accepted connection and calls `Accept` again; whereas on the path where
the dial succeeds the inbound connection does get closed. -/
theorem handleConn_dial_failure_no_close :
    (w0.clientDial s1.client "tcp" s1.remoteAddr).2 = some ⟨"unreachable"⟩ ∧
    (∀ sched, s1.handleConn w0 c0 sched =
      ⟨[.printf "accept %s" [.str "1.2.3.4:5"], .dial (some ⟨1⟩) "tcp" "10.0.0.6:22",
        .printf "dial %s error" [.str "10.0.0.6:22"]], .ret ()⟩) ∧
    (∀ sched, Event.close .inbound ∉ (s1.handleConn w0 c0 sched).trace) ∧
    s1.Run w0 =
      ⟨[.listen "tcp" ":2222", .accept ":2222", .goHandleConn s1 c0, .accept ":2222",
        .goHandleConn s1 c0, .accept ":2222"], .block⟩ ∧
    Event.close .inbound ∈ (s0.handleConn w0 c0 sched0).trace := by
  have h : ∀ sched, s1.handleConn w0 c0 sched =
      ⟨[.printf "accept %s" [.str "1.2.3.4:5"], .dial (some ⟨1⟩) "tcp" "10.0.0.6:22",
        .printf "dial %s error" [.str "10.0.0.6:22"]], .ret ()⟩ := by
    intro sched
    rw [handleConn_eq]
    rfl
  refine ⟨by decide, h, ?_, by decide, by decide⟩
  intro sched
  rw [h]
  decide

/-- C6: under every schedule and whatever the dial answers, the trace of
`handleConn` holds exactly one call of `Dial`: on the client of the session,
on network tcp, to the remote address of the session. -/
theorem handleConn_one_dial (w : World) (s : session) (conn : NetConn) (sched : List Tid) :
    (s.handleConn w conn sched).trace.filter Event.isDial =
      [.dial s.client "tcp" s.remoteAddr] := by
  rw [handleConn_eq]
  rcases hd : (w.clientDial s.client "tcp" s.remoteAddr).2 with _ | e
  · have hr : (relay s conn (w.clientDial s.client "tcp" s.remoteAddr).1 sched).trace.filter
        Event.isDial = [] := by
      rw [List.filter_eq_nil_iff]
      intro e he
      simp [relay_no_dial s conn _ sched e he]
    simp [List.filter_cons, List.filter_append, Event.isDial, hr]
  · simp [List.filter_cons, Event.isDial]

/-- C9: when the dial succeeds and neither peer ever refuses a write, then
under every schedule, for the copy from the inbound socket to the remote
stream: the bytes read from the inbound socket are an initial part of what its
peer sends; the bytes written to the remote stream are an initial part of the
bytes read; they are exactly the bytes read once `io.Copy(remote, conn)` has
returned, and so whenever the remote stream has been closed; and when the
remote stream is closed before the inbound socket is, they are exactly what
the inbound peer sends up to its end of stream.  The same holds for the copy
from the remote stream to the inbound socket.  When `handleConn` has returned,
each destination has been written exactly the bytes read from its source. -/
theorem handleConn_bytes (w : World) (s : session) (conn remote : NetConn) (sched : List Tid)
    (hd : w.clientDial s.client "tcp" s.remoteAddr = (remote, none))
    (h1 : conn.wcap = none) (h2 : remote.wcap = none) :
    (readBytes .inbound (s.handleConn w conn sched).trace <+: allBytes conn.rscript ∧
      writtenBytes .remote (s.handleConn w conn sched).trace <+:
        readBytes .inbound (s.handleConn w conn sched).trace ∧
      (Event.copyReturn .up ∈ (s.handleConn w conn sched).trace →
        writtenBytes .remote (s.handleConn w conn sched).trace =
          readBytes .inbound (s.handleConn w conn sched).trace) ∧
      (Event.close .remote ∈ (s.handleConn w conn sched).trace →
        writtenBytes .remote (s.handleConn w conn sched).trace =
          readBytes .inbound (s.handleConn w conn sched).trace) ∧
      (ClosedFirst (.close .remote) (.close .inbound) (s.handleConn w conn sched).trace →
        writtenBytes .remote (s.handleConn w conn sched).trace = streamBytes conn.rscript)) ∧
    (readBytes .remote (s.handleConn w conn sched).trace <+: allBytes remote.rscript ∧
      writtenBytes .inbound (s.handleConn w conn sched).trace <+:
        readBytes .remote (s.handleConn w conn sched).trace ∧
      (Event.copyReturn .down ∈ (s.handleConn w conn sched).trace →
        writtenBytes .inbound (s.handleConn w conn sched).trace =
          readBytes .remote (s.handleConn w conn sched).trace) ∧
      (Event.close .inbound ∈ (s.handleConn w conn sched).trace →
        writtenBytes .inbound (s.handleConn w conn sched).trace =
          readBytes .remote (s.handleConn w conn sched).trace) ∧
      (ClosedFirst (.close .inbound) (.close .remote) (s.handleConn w conn sched).trace →
        writtenBytes .inbound (s.handleConn w conn sched).trace = streamBytes remote.rscript)) ∧
    ((s.handleConn w conn sched).out = .ret () →
      writtenBytes .remote (s.handleConn w conn sched).trace =
          readBytes .inbound (s.handleConn w conn sched).trace ∧
        writtenBytes .inbound (s.handleConn w conn sched).trace =
          readBytes .remote (s.handleConn w conn sched).trace) := by
  have hf := run_flow s conn remote sched h1 h2
  obtain ⟨hc, ho⟩ := run_ctl_ord s conn remote sched
  obtain ⟨hfe, hwh⟩ := run_feed s conn remote sched h1 h2
  have bu := hf.bytes .up
  have bd := hf.bytes .down
  have su := hfe.sent .up
  have sd := hfe.sent .down
  have fu := hwh.first .up
  have fd := hwh.first .down
  have ru := ho.ret_iff .up
  have rd := ho.ret_iff .down
  have ku := ho.close_iff .up
  have kd := ho.close_iff .down
  simp only [Dir.src, Dir.dst, peerOf] at bu bd su sd fu fd ku kd
  have htr := handleConn_success w s conn remote sched hd
  have er : ∀ sd, readBytes sd (s.handleConn w conn sched).trace =
      readBytes sd (Relay.run s conn (Relay.init conn remote) sched).trace := by
    intro sd
    rw [htr]
    simp [relay, readBytes_append, readBytes]
  have ew : ∀ sd, writtenBytes sd (s.handleConn w conn sched).trace =
      writtenBytes sd (Relay.run s conn (Relay.init conn remote) sched).trace := by
    intro sd
    rw [htr]
    simp [relay, writtenBytes_append, writtenBytes]
  have em : ∀ x : Event, (x = .copyReturn .up ∨ x = .copyReturn .down ∨ x = .close .remote ∨
      x = .close .inbound) → x ∈ (s.handleConn w conn sched).trace →
      x ∈ (Relay.run s conn (Relay.init conn remote) sched).trace := by
    intro x hx
    rw [htr]
    rcases hx with rfl | rfl | rfl | rfl <;> simp [relay]
  have ec : ∀ a b : Side, ClosedFirst (.close a) (.close b) (s.handleConn w conn sched).trace →
      ClosedFirst (.close a) (.close b) (Relay.run s conn (Relay.init conn remote) sched).trace := by
    intro a b
    rw [htr]
    intro hcf
    exact closedFirst_drop _ _ _ _ hcf (by simp)
  have eo : (s.handleConn w conn sched).out = .ret () →
      (Relay.run s conn (Relay.init conn remote) sched).mainPC = .returned := by
    rw [htr]
    intro hret
    by_contra hne
    simp [relay, hne] at hret
  simp only [er, ew]
  refine ⟨⟨⟨_, su⟩, ⟨_, bu⟩, ?_, ?_, ?_⟩, ⟨⟨_, sd⟩, ⟨_, bd⟩, ?_, ?_, ?_⟩, ?_⟩
  · intro h
    rw [← bu, pending_of_copied _ (ru.mp (em _ (by simp) h)), List.append_nil]
  · intro h
    rw [← bu, pending_of_copied _ (copied_of_closed _ (ku.mp (em _ (by simp) h))),
      List.append_nil]
  · intro h
    exact (fu (ec _ _ h)).2
  · intro h
    rw [← bd, pending_of_copied _ (rd.mp (em _ (by simp) h)), List.append_nil]
  · intro h
    rw [← bd, pending_of_copied _ (copied_of_closed _ (kd.mp (em _ (by simp) h))),
      List.append_nil]
  · intro h
    exact (fd (ec _ _ h)).2
  · intro h
    have hm := eo h
    have pu := ctl_waited _ hc (Or.inr hm) .up
    have pd := ctl_waited _ hc (Or.inr hm) .down
    rw [pu] at bu
    rw [pd] at bd
    simp only [pending_finished, List.append_nil] at bu bd
    exact ⟨bu, bd⟩

/-- A run of the sample connection: it returns, the inbound peer sent `[1, 2]`
and the remote peer `[9]`, and each side was written what the other sent. -/
theorem handleConn_bytes_witness :
    (s0.handleConn w0 c0 sched0).out = .ret () ∧
      readBytes .inbound (s0.handleConn w0 c0 sched0).trace = [1, 2] ∧
      writtenBytes .remote (s0.handleConn w0 c0 sched0).trace = [1, 2] ∧
      readBytes .remote (s0.handleConn w0 c0 sched0).trace = [9] ∧
      writtenBytes .inbound (s0.handleConn w0 c0 sched0).trace = [9] :=
  ⟨by decide, by decide,
    (handleConn_bytes w0 s0 c0 r0 sched0 (by decide) rfl rfl).1.2.2.2.2
      ⟨(s0.handleConn w0 c0 sched0).trace.take 13, (s0.handleConn w0 c0 sched0).trace.drop 14,
        by decide, by decide⟩,
    by decide,
    ((handleConn_bytes w0 s0 c0 r0 sched0 (by decide) rfl rfl).2.1.2.2.2.1 (by decide)).trans
      (by decide)⟩

theorem closedLine_not_in_head (s : session) (conn : NetConn) :
    closedLine s conn ∉ [Event.printf "accept %s" [.str conn.remoteAddr],
      .dial s.client "tcp" s.remoteAddr,
      .printf "%s -> %s connected." [.str conn.remoteAddr, .str s.remoteAddr]] := by
  intro h
  simp only [List.mem_cons, List.mem_singleton, List.not_mem_nil, or_false] at h
  rcases h with h | h | h
  · injection h with h1 _
    exact absurd h1 (by decide)
  · cases h
  · injection h with h1 _
    exact absurd h1 (by decide)

/-- C10: when the dial succeeds, then under every schedule, for each copy
goroutine `d` with destination `d.dst`: every `Close` of `d.dst` comes after
the return of the `io.Copy` of `d`, after which `d` makes no further `Read` or
`Write`; `d.dst` is closed at most once; and every occurrence of the closed
line comes after the `wait.Done()` of `d` and after the `Close` of `d.dst`.
If `handleConn` has returned, the closed line has been logged, and both
goroutines have ended their copy, closed their destination exactly once and
called `wait.Done()`. -/
theorem handleConn_close_order (w : World) (s : session) (conn remote : NetConn)
    (sched : List Tid) (hd : w.clientDial s.client "tcp" s.remoteAddr = (remote, none)) :
    (∀ d : Dir,
      Precedes (.copyReturn d) (.close d.dst) (s.handleConn w conn sched).trace ∧
      NoneAfter (.copyReturn d) (Event.copies d) (s.handleConn w conn sched).trace ∧
      (s.handleConn w conn sched).trace.count (.close d.dst) ≤ 1 ∧
      Precedes (.wgDone d) (closedLine s conn) (s.handleConn w conn sched).trace ∧
      Precedes (.close d.dst) (closedLine s conn) (s.handleConn w conn sched).trace) ∧
    ((s.handleConn w conn sched).out = .ret () →
      closedLine s conn ∈ (s.handleConn w conn sched).trace ∧
      ∀ d : Dir, Event.copyReturn d ∈ (s.handleConn w conn sched).trace ∧
        (s.handleConn w conn sched).trace.count (.close d.dst) = 1 ∧
        Event.wgDone d ∈ (s.handleConn w conn sched).trace) := by
  obtain ⟨hc, ho⟩ := run_ctl_ord s conn remote sched
  rw [handleConn_success w s conn remote sched hd]
  simp only [relay]
  have hcnt : ∀ d : Dir, List.count (Event.close d.dst)
      ([Event.printf "accept %s" [.str conn.remoteAddr], .dial s.client "tcp" s.remoteAddr,
        .printf "%s -> %s connected." [.str conn.remoteAddr, .str s.remoteAddr]] ++
        (Relay.run s conn (Relay.init conn remote) sched).trace) =
      if ((Relay.run s conn (Relay.init conn remote) sched).pc d).closed = true then 1 else 0 := by
    intro d
    rw [List.count_append, ho.close_cnt d]
    simp [List.count_cons]
  refine ⟨fun d => ⟨?_, ?_, ?_, ?_, ?_⟩, ?_⟩
  · exact precedes_prepend _ _ _ _ (ho.close_after d) (by simp)
  · exact noneAfter_prepend _ _ _ _ (ho.quiet d) (by simp)
  · rw [hcnt d]
    split <;> simp
  · exact precedes_prepend _ _ _ _ (ho.line_done d) (closedLine_not_in_head s conn)
  · exact precedes_prepend _ _ _ _ (ho.line_close d) (closedLine_not_in_head s conn)
  · intro hret
    have hm : (Relay.run s conn (Relay.init conn remote) sched).mainPC = .returned := by
      by_contra hne
      simp [hne] at hret
    refine ⟨List.mem_append_right _ (ho.line_iff.mpr hm), fun d => ?_⟩
    have hfin := ctl_waited _ hc (Or.inr hm) d
    refine ⟨List.mem_append_right _ ((ho.ret_iff d).mpr (by rw [hfin]; rfl)), ?_,
      List.mem_append_right _ ((ho.done_iff d).mpr hfin)⟩
    rw [hcnt d, hfin]
    rfl

theorem handleConn_close_order_witness :
    (s0.handleConn w0 c0 sched0).out = .ret () ∧
    (∀ d : Dir,
      Precedes (.copyReturn d) (.close d.dst) (s0.handleConn w0 c0 sched0).trace ∧
      NoneAfter (.copyReturn d) (Event.copies d) (s0.handleConn w0 c0 sched0).trace ∧
      (s0.handleConn w0 c0 sched0).trace.count (.close d.dst) ≤ 1 ∧
      Precedes (.wgDone d) (closedLine s0 c0) (s0.handleConn w0 c0 sched0).trace ∧
      Precedes (.close d.dst) (closedLine s0 c0) (s0.handleConn w0 c0 sched0).trace) ∧
    closedLine s0 c0 ∈ (s0.handleConn w0 c0 sched0).trace ∧
    ∀ d : Dir, Event.copyReturn d ∈ (s0.handleConn w0 c0 sched0).trace ∧
      (s0.handleConn w0 c0 sched0).trace.count (.close d.dst) = 1 ∧
      Event.wgDone d ∈ (s0.handleConn w0 c0 sched0).trace :=
  ⟨by decide, (handleConn_close_order w0 s0 c0 r0 sched0 (by decide)).1,
    (handleConn_close_order w0 s0 c0 r0 sched0 (by decide)).2 (by decide)⟩

end Sshtun
